import Mathlib

/-!
# sai/version.h : a verification development

Shallow embedding of the class `version` of `version.h` (parse, format, compare)
and theorems about it.

Modelling conventions
* `std::string` and C strings are `List Char`; a string literal of the source is
  written `"...".toList`.
* `int` is `Int`; the only place where the width of `int` matters is `std::stoi`,
  which reports `out_of_range` outside `[INT_MIN, INT_MAX]`.
* `try_parse(const std::string&, version& result)` takes the prior value of `result`
  and returns the flag together with the value of `result` after the call.
* `parse` returns `Except version_parse_exception version`.
* the `while (std::getline(ss, s, '.'))` loop is a recursion on a fuel argument; the
  fuel given by `try_parse` is proved sufficient (`try_parse_loop_fuel`).
-/

namespace sai

/-! ## Library functions used by `version.h` -/

/-- Largest value of `int` (32 bit). -/
def INT_MAX : Int := 2147483647

/-- Smallest value of `int` (32 bit). -/
def INT_MIN : Int := -2147483648

/-- White space in the sense of `isspace` in the "C" locale:
space, `\t`, `\n`, `\v`, `\f`, `\r`. -/
def isspace (c : Char) : Bool :=
  c.toNat = 32 || (9 ≤ c.toNat && c.toNat ≤ 13)

/-- Value of a decimal digit character. -/
def digit_value (c : Char) : Nat := c.toNat - 48

/-- Value of a run of decimal digits, most significant first. -/
def digits_value (ds : List Char) : Nat :=
  ds.foldl (fun acc c => 10 * acc + digit_value c) 0

/-- The two exceptions `std::stoi` throws. -/
inductive stoi_error where
  | invalid_argument
  | out_of_range
deriving DecidableEq, Repr

/-- The part of `s` that `strtol` converts in base 10: leading white space is skipped,
an optional sign is taken, then the longest run of decimal digits. The result is the
"negative" flag and the digit run; whatever follows the digits is ignored. -/
def stoi_sign_digits (s : List Char) : Bool × List Char :=
  match s.dropWhile isspace with
  | c :: t =>
    if c = '-' then (true, t.takeWhile Char.isDigit)
    else if c = '+' then (false, t.takeWhile Char.isDigit)
    else (false, (c :: t).takeWhile Char.isDigit)
  | [] => (false, [])

/-- The function `std::stoi(s)` (base 10, no position output). No digit to convert:
`invalid_argument`. Value outside `int`: `out_of_range`. -/
def stoi (s : List Char) : Except stoi_error Int :=
  let sd := stoi_sign_digits s
  if sd.2 = [] then Except.error stoi_error.invalid_argument
  else
    let n : Int := if sd.1 then -(digits_value sd.2 : Int) else (digits_value sd.2 : Int)
    if n < INT_MIN ∨ INT_MAX < n then Except.error stoi_error.out_of_range
    else Except.ok n

/-- The function `std::to_string(int)`: decimal digits, with a leading `-` for a
negative value. -/
def std_to_string (n : Int) : List Char :=
  if n < 0 then '-' :: Nat.toDigits 10 n.natAbs else Nat.toDigits 10 n.natAbs

/-- The member `std::string::find(char)`: index of the first occurrence, `none` for `npos`. -/
def find : List Char → Char → Option Nat
  | [], _ => none
  | x :: xs, c => if x = c then some 0 else (find xs c).map (· + 1)

/-- The member `std::string::substr(pos)` for `pos ≤ length`. -/
def substr_pos (s : List Char) (pos : Nat) : List Char := s.drop pos

/-- The member `std::string::substr(pos, count)` for `pos ≤ length`. -/
def substr_pos_count (s : List Char) (pos count : Nat) : List Char := (s.drop pos).take count

/-- State of a `std::stringstream` that is only read: the characters not yet extracted
and the `eofbit`. (Once `failbit` is set the loop of `try_parse` has ended.) -/
structure stringstream where
  buf : List Char
  eofbit : Bool
deriving DecidableEq, Repr

/-- Character extraction of `std::getline`: characters up to the delimiter, which is
extracted and dropped (`some rest`), or up to the end of the buffer (`none`). -/
def getline_extract (delim : Char) : List Char → List Char × Option (List Char)
  | [] => ([], none)
  | c :: cs =>
    if c = delim then ([], some cs)
    else ((c :: (getline_extract delim cs).1), (getline_extract delim cs).2)

/-- The function `std::getline(ss, s, delim)` as used in a loop condition: `none` when
the stream is false afterwards (it was not good, or no character at all was extracted),
else the string read and the new stream state. -/
def getline (ss : stringstream) (delim : Char) : Option (List Char × stringstream) :=
  if ss.eofbit then none
  else
    match getline_extract delim ss.buf with
    | (s, some rest) => some (s, { buf := rest, eofbit := false })
    | (s, none) => if s = [] then none else some (s, { buf := [], eofbit := true })

/-! ## The class `version` -/

/-- The exception class `version_parse_exception`. -/
structure version_parse_exception where
  message_ : List Char
deriving DecidableEq, Repr

/-- The data members of `version` with their default member initialisers. -/
structure version where
  major_ : Int := 0
  minor_ : Int := 0
  revision_ : Int := 0
  build_ : Int := 0
  seq_field_count_ : Int := 2
  release_ : List Char := []
  release_set_ : Bool := false
deriving DecidableEq, Repr

namespace version

/-- Body of the `while` loop of `try_parse` for the segment `s` at index `i`, on the
local `v`: `none` is `return false`. -/
def try_parse_body (v : version) (i : Nat) (s : List Char) : Option version :=
  let vs : version × List Char :=
    match find s '-' with
    | some release_index =>
      let v1 : version :=
        { v with release_ := substr_pos s (release_index + 1), release_set_ := true }
      let v2 : version :=
        if v1.seq_field_count_ = 4 then
          { v1 with seq_field_count_ := v1.seq_field_count_ + 1 }
        else v1
      (v2, substr_pos_count s 0 release_index)
    | none => (v, s)
  match stoi vs.2 with
  | Except.error _ => none
  | Except.ok n =>
    if i = 0 then some { vs.1 with major_ := n }
    else if i = 1 then some { vs.1 with minor_ := n }
    else if i = 2 then
      some { vs.1 with revision_ := n, seq_field_count_ := vs.1.seq_field_count_ + 1 }
    else if i = 3 then
      some { vs.1 with build_ := n, seq_field_count_ := vs.1.seq_field_count_ + 1 }
    else some vs.1

/-- The `while (std::getline(ss, s, '.'))` loop of `try_parse`.
Outer `none`: the fuel ran out. `some none`: `return false` inside the loop.
`some (some v)`: the loop ended with the local `v`. -/
def try_parse_loop : Nat → stringstream → version → Nat → Option (Option version)
  | 0, _, _, _ => none
  | fuel + 1, ss, v, i =>
    match getline ss '.' with
    | none => some (some v)
    | some (s, ss1) =>
      match try_parse_body v i s with
      | none => some none
      | some v1 => try_parse_loop fuel ss1 v1 (i + 1)

/-- The function `version::try_parse(version_string, result)`: the returned flag and the
value of `result` after the call. -/
def try_parse (version_string : List Char) (result : version) : Bool × version :=
  if version_string.length = 0 then (false, result)
  else
    match try_parse_loop (version_string.length + 1)
        { buf := version_string, eofbit := false } {} 0 with
    | some (some v) => (true, v)
    | _ => (false, result)

/-- The function `version::parse(version_string)`. -/
def parse (version_string : List Char) : Except version_parse_exception version :=
  let r := try_parse version_string {}
  if !r.1 then Except.error { message_ := "Could not parse version.".toList }
  else Except.ok r.2

/-- Constructor `version()`. -/
def version_default : version := {}

/-- Constructor `version(int major, int minor)`. -/
def version_int_int (major minor : Int) : version :=
  { major_ := major, minor_ := minor }

/-- Constructor `version(int major, int minor, std::string release)`. -/
def version_int_int_string (major minor : Int) (release : List Char) : version :=
  { major_ := major, minor_ := minor, release_ := release, seq_field_count_ := 2,
    release_set_ := true }

/-- Constructor `version(int major, int minor, int revision)`. -/
def version_int_int_int (major minor revision : Int) : version :=
  { major_ := major, minor_ := minor, revision_ := revision, seq_field_count_ := 3 }

/-- Constructor `version(int major, int minor, int revision, std::string release)`. -/
def version_int_int_int_string (major minor revision : Int) (release : List Char) :
    version :=
  { major_ := major, minor_ := minor, revision_ := revision, seq_field_count_ := 3,
    release_ := release, release_set_ := true }

/-- Constructor `version(int major, int minor, int revision, int build)`. -/
def version_int_int_int_int (major minor revision build : Int) : version :=
  { major_ := major, minor_ := minor, revision_ := revision, build_ := build,
    seq_field_count_ := 4 }

/-- Constructor `version(int major, int minor, int revision, int build, std::string release)`. -/
def version_int_int_int_int_string (major minor revision build : Int)
    (release : List Char) : version :=
  { major_ := major, minor_ := minor, revision_ := revision, build_ := build,
    release_ := release, seq_field_count_ := 5, release_set_ := true }

/-- The function `version::fields()`. -/
def fields (v : version) : Int :=
  if v.seq_field_count_ < 5 ∧ v.release_set_ = true then v.seq_field_count_ + 1
  else v.seq_field_count_

/-- The function `version::empty()`. -/
def empty (v : version) : Bool :=
  decide (v.major_ = 0) && decide (v.minor_ = 0) && decide (v.revision_ = 0) &&
    decide (v.build_ = 0) && decide (v.release_.length = 0) &&
    decide (v.seq_field_count_ = 2) && decide (v.release_set_ = false)

/-- The function `version::clear()`: the object after the call. -/
def clear (_v : version) : version :=
  { major_ := 0, minor_ := 0, revision_ := 0, build_ := 0, release_ := [],
    seq_field_count_ := 2, release_set_ := false }

/-- The function `to_string(int field_count, bool include_release,
const char* release_separator)`. -/
def to_string_int_bool_cstr (v : version) (field_count : Int) (include_release : Bool)
    (release_separator : List Char) : List Char :=
  let str := std_to_string v.major_ ++ ".".toList ++ std_to_string v.minor_
  let str := if field_count ≥ 3 then str ++ (".".toList ++ std_to_string v.revision_) else str
  let str := if field_count ≥ 4 then str ++ (".".toList ++ std_to_string v.build_) else str
  let str :=
    if (field_count ≥ 5 ∧ v.release_.length > 0) ∨ include_release = true then
      str ++ (release_separator ++ v.release_)
    else str
  str

/-- The member `std::string::c_str()` read as a C string: the characters before the
first NUL. -/
def c_str (s : List Char) : List Char := s.takeWhile (fun c => c.toNat ≠ 0)

/-- The function `to_string(int field_count, bool include_release,
const std::string& release_separator)`. -/
def to_string_int_bool_string (v : version) (field_count : Int) (include_release : Bool)
    (release_separator : List Char) : List Char :=
  to_string_int_bool_cstr v field_count include_release (c_str release_separator)

/-- The function `to_string(int field_count, bool include_release)`. -/
def to_string_int_bool (v : version) (field_count : Int) (include_release : Bool) :
    List Char :=
  to_string_int_bool_cstr v field_count include_release "_".toList

/-- The function `to_string(int field_count)`; its body does not read `field_count`. -/
def to_string_int (v : version) (_field_count : Int) : List Char :=
  to_string_int_bool v v.seq_field_count_ v.release_set_

/-- The function `to_string()`. -/
def to_string (v : version) : List Char :=
  to_string_int v v.seq_field_count_

/-- The function `version::compare(other)`. -/
def compare (v other : version) : Int :=
  if v.major_ ≠ other.major_ then
    (if v.major_ < other.major_ then -1 else 1)
  else if v.minor_ ≠ other.minor_ then
    (if v.minor_ < other.minor_ then -1 else 1)
  else if v.revision_ ≠ other.revision_ then
    (if v.revision_ < other.revision_ then -1 else 1)
  else if v.build_ ≠ other.build_ then
    (if v.build_ < other.build_ then -1 else 1)
  else if v.release_set_ ≠ other.release_set_ ∧ v.release_ ≠ other.release_ then -1
  else 0

/-- The operator `==`. -/
def op_eq (v other : version) : Bool := decide (compare v other = 0)

/-- The operator `!=`. -/
def op_ne (v other : version) : Bool := decide (compare v other = -1)

/-- The operator `<`. -/
def op_lt (v other : version) : Bool := decide (compare v other < 0)

/-- The operator `>`. -/
def op_gt (v other : version) : Bool := decide (compare v other > 0)

/-- The operator `<=`. -/
def op_le (v other : version) : Bool := decide (compare v other ≤ 0)

/-- The operator `>=`. -/
def op_ge (v other : version) : Bool := decide (compare v other ≥ 0)

end version

open version

/-! ## Notions used to state the properties -/

/-- A base-10 numeral of a non-negative integer: a non-empty run of decimal digits. -/
def is_numeral (d : List Char) : Prop := d ≠ [] ∧ ∀ c ∈ d, c.isDigit = true

instance (d : List Char) : Decidable (is_numeral d) :=
  inferInstanceAs (Decidable (d ≠ [] ∧ ∀ c ∈ d, c.isDigit = true))

/-- The numeric portion of a segment: the text before its first `-`. -/
def numeric_portion (seg : List Char) : List Char := seg.takeWhile (fun c => decide (c ≠ '-'))

/-- The segments that `try_parse` reads from its input: the pieces between the dots,
where a dot that ends the input does not open a further, empty segment. -/
def read_segments (s : List Char) : List (List Char) :=
  if (s.splitOn '.').getLast? = some [] then (s.splitOn '.').dropLast else s.splitOn '.'

/-- The loop body of `try_parse` run over a list of segments, from index `i`. -/
def run_segments : List (List Char) → version → Nat → Option version
  | [], v, _ => some v
  | s :: rest, v, i =>
    match try_parse_body v i s with
    | none => none
    | some v1 => run_segments rest v1 (i + 1)

/-- Constructor `version(std::string version_string)`: `*this = parse(version_string)`,
so it throws what `parse` throws. -/
def version_std_string (version_string : List Char) : Except version_parse_exception version :=
  parse version_string

/-- Constructor `version(const char* version_string)`, which delegates to the one above. -/
def version_cstr (version_string : List Char) : Except version_parse_exception version :=
  version_std_string version_string

/-- The 4-tuple `(major, minor, revision, build)` of a version. -/
def numeric_tuple (v : version) : List Int := [v.major_, v.minor_, v.revision_, v.build_]

/-- Decision by the first position where two tuples differ: -1 when the left field is the
smaller one, 1 when it is the larger one, 0 when no position differs. -/
def first_difference : List Int → List Int → Int
  | x :: xs, y :: ys => if x = y then first_difference xs ys else if x < y then -1 else 1
  | _, _ => 0

/-- The reference result of a comparison, in the words of the specification: the first
differing field of the 4-tuples decides; for equal 4-tuples the result is -1 when
`release_set` differs and the release strings differ, and 0 otherwise. -/
def compare_reference (a b : version) : Int :=
  if numeric_tuple a ≠ numeric_tuple b then
    first_difference (numeric_tuple a) (numeric_tuple b)
  else if a.release_set_ ≠ b.release_set_ ∧ a.release_ ≠ b.release_ then -1
  else 0

/-- The versions obtainable through the public interface: the constructors, `clear()`,
a successful `parse` (which the two constructors from a string run) and a successful
`try_parse`. Copies and assignments duplicate all members. -/
inductive obtainable : version → Prop
  | from_default : obtainable version_default
  | from_int_int (major minor : Int) : obtainable (version_int_int major minor)
  | from_int_int_string (major minor : Int) (release : List Char) :
      obtainable (version_int_int_string major minor release)
  | from_int_int_int (major minor revision : Int) :
      obtainable (version_int_int_int major minor revision)
  | from_int_int_int_string (major minor revision : Int) (release : List Char) :
      obtainable (version_int_int_int_string major minor revision release)
  | from_int_int_int_int (major minor revision build : Int) :
      obtainable (version_int_int_int_int major minor revision build)
  | from_int_int_int_int_string (major minor revision build : Int) (release : List Char) :
      obtainable (version_int_int_int_int_string major minor revision build release)
  | from_std_string (version_string : List Char) (v : version) :
      version_std_string version_string = Except.ok v → obtainable v
  | from_cstr (version_string : List Char) (v : version) :
      version_cstr version_string = Except.ok v → obtainable v
  | from_parse (version_string : List Char) (v : version) :
      parse version_string = Except.ok v → obtainable v
  | from_try_parse (version_string : List Char) (result v : version) :
      try_parse version_string result = (true, v) → obtainable v
  | from_clear (v : version) : obtainable (clear v)

/-! ## Lemmas on the library functions -/

theorem getline_extract_spec (delim : Char) (buf : List Char) :
    (∃ s rest, getline_extract delim buf = (s, some rest) ∧ buf = s ++ delim :: rest ∧
        delim ∉ s) ∨
      (getline_extract delim buf = (buf, none) ∧ delim ∉ buf) := by
  induction buf with
  | nil => right; simp [getline_extract]
  | cons c cs ih =>
    by_cases hc : c = delim
    · left
      exact ⟨[], cs, by simp [getline_extract, hc], by simp [hc], by simp⟩
    · rcases ih with ⟨s, rest, h1, h2, h3⟩ | ⟨h1, h2⟩
      · left
        refine ⟨c :: s, rest, by simp [getline_extract, hc, h1], by simp [h2], ?_⟩
        simp only [List.mem_cons, not_or]
        exact ⟨fun h => hc h.symm, h3⟩
      · right
        refine ⟨by simp [getline_extract, hc, h1], ?_⟩
        simp only [List.mem_cons, not_or]
        exact ⟨fun h => hc h.symm, h2⟩

theorem splitOn_dot_first (s rest : List Char) (h : '.' ∉ s) :
    (s ++ '.' :: rest).splitOn '.' = s :: rest.splitOn '.' := by
  unfold List.splitOn
  apply List.splitOnP_first
  · intro x hx hx2
    have : x = '.' := by simpa using hx2
    exact h (this ▸ hx)
  · simp

theorem splitOn_dot_single (s : List Char) (h : '.' ∉ s) : s.splitOn '.' = [s] := by
  unfold List.splitOn
  apply List.splitOnP_eq_single
  intro x hx hx2
  have : x = '.' := by simpa using hx2
  exact h (this ▸ hx)

theorem read_segments_cons (s rest : List Char) (h : '.' ∉ s) :
    read_segments (s ++ '.' :: rest) = s :: read_segments rest := by
  unfold read_segments
  rw [splitOn_dot_first s rest h]
  have hne : rest.splitOn '.' ≠ [] := List.splitOnP_ne_nil _ _
  obtain ⟨x, l, hl⟩ := List.exists_cons_of_ne_nil hne
  rw [hl]
  simp only [List.getLast?_cons_cons, List.dropLast_cons₂]
  split <;> rfl

theorem read_segments_single (s : List Char) (h : '.' ∉ s) :
    read_segments s = if s = [] then [] else [s] := by
  unfold read_segments
  rw [splitOn_dot_single s h]
  by_cases hs : s = []
  · simp [hs]
  · simp [hs]

/-- The loop of `try_parse` with enough fuel runs the body over the read segments. -/
theorem try_parse_loop_eq (fuel : Nat) : ∀ (buf : List Char) (v : version) (i : Nat),
    buf.length + 1 ≤ fuel →
    try_parse_loop fuel { buf := buf, eofbit := false } v i =
      some (run_segments (read_segments buf) v i) := by
  induction fuel with
  | zero => intro buf v i h; omega
  | succ fuel ih =>
    intro buf v i hfuel
    rcases getline_extract_spec '.' buf with ⟨s, rest, h1, h2, h3⟩ | ⟨h1, h2⟩
    · have hlen : rest.length + 1 ≤ fuel := by
        have : buf.length = s.length + (rest.length + 1) := by rw [h2]; simp
        omega
      have hg : getline { buf := buf, eofbit := false } '.' =
          some (s, { buf := rest, eofbit := false }) := by
        simp [getline, h1]
      rw [h2, read_segments_cons s rest h3, ← h2]
      simp only [try_parse_loop, hg, run_segments]
      cases hb : try_parse_body v i s with
      | none => rfl
      | some v1 => exact ih rest v1 (i + 1) hlen
    · rw [read_segments_single buf h2]
      by_cases hs : buf = []
      · subst hs
        have hg : getline { buf := [], eofbit := false } '.' = none := by
          simp [getline, getline_extract]
        simp [try_parse_loop, hg, run_segments]
      · have hpos : 0 < buf.length := List.length_pos.mpr hs
        obtain ⟨f, rfl⟩ : ∃ f, fuel = f + 1 := ⟨fuel - 1, by omega⟩
        have hg : getline { buf := buf, eofbit := false } '.' =
            some (buf, { buf := [], eofbit := true }) := by
          simp [getline, h1, hs]
        have hg2 : getline { buf := [], eofbit := true } '.' = none := by
          simp [getline]
        simp only [try_parse_loop, hg, hs, run_segments, if_false]
        cases hb : try_parse_body v i buf with
        | none => rfl
        | some v1 => simp [run_segments, hg2]

/-- The fuel that `try_parse` gives to its loop never runs out. -/
theorem try_parse_loop_fuel (s : List Char) (v : version) (i : Nat) :
    try_parse_loop (s.length + 1) { buf := s, eofbit := false } v i ≠ none := by
  rw [try_parse_loop_eq _ s v i (le_refl _)]
  simp

theorem try_parse_eq (s : List Char) (r : version) :
    try_parse s r =
      if s = [] then (false, r)
      else
        match run_segments (read_segments s) {} 0 with
        | some v => (true, v)
        | none => (false, r) := by
  unfold try_parse
  rw [try_parse_loop_eq _ s _ 0 (le_refl _)]
  by_cases hs : s = []
  · simp [hs]
  · have : s.length ≠ 0 := fun h => hs (List.length_eq_zero.mp h)
    simp only [this, hs, if_false]
    cases run_segments (read_segments s) {} 0 <;> rfl

/-! ## Lemmas on characters, `find` and `stoi` -/

theorem isDigit_toNat (c : Char) : c.isDigit = true ↔ 48 ≤ c.toNat ∧ c.toNat ≤ 57 := by
  simp only [Char.isDigit, Char.toNat, Bool.and_eq_true, decide_eq_true_eq]
  constructor
  · rintro ⟨h1, h2⟩
    exact ⟨h1, h2⟩
  · rintro ⟨h1, h2⟩
    exact ⟨h1, h2⟩

theorem isDigit_not_isspace (c : Char) (h : c.isDigit = true) : isspace c = false := by
  rw [isDigit_toNat] at h
  simp only [isspace, Bool.or_eq_false_iff, decide_eq_false_iff_not, Bool.and_eq_false_imp,
    decide_eq_true_eq]
  omega

theorem isDigit_ne_minus (c : Char) (h : c.isDigit = true) : c ≠ '-' := by
  rintro rfl
  exact absurd h (by decide)

theorem isDigit_ne_plus (c : Char) (h : c.isDigit = true) : c ≠ '+' := by
  rintro rfl
  exact absurd h (by decide)

theorem isDigit_ne_dot (c : Char) (h : c.isDigit = true) : c ≠ '.' := by
  rintro rfl
  exact absurd h (by decide)

theorem is_numeral_not_mem_minus (d : List Char) (h : is_numeral d) : '-' ∉ d :=
  fun hm => isDigit_ne_minus _ (h.2 _ hm) rfl

theorem is_numeral_not_mem_dot (d : List Char) (h : is_numeral d) : '.' ∉ d :=
  fun hm => isDigit_ne_dot _ (h.2 _ hm) rfl

theorem takeWhile_isDigit_all (d : List Char) (h : ∀ c ∈ d, c.isDigit = true) :
    d.takeWhile Char.isDigit = d := by
  rw [List.takeWhile_eq_self_iff]
  exact h

theorem stoi_sign_digits_numeral (d : List Char) (h : is_numeral d) :
    stoi_sign_digits d = (false, d) := by
  obtain ⟨hne, hd⟩ := h
  obtain ⟨c, t, rfl⟩ := List.exists_cons_of_ne_nil hne
  have hc : c.isDigit = true := hd c (List.mem_cons_self _ _)
  have h1 : (c :: t).dropWhile isspace = c :: t := by
    simp [List.dropWhile, isDigit_not_isspace c hc]
  simp only [stoi_sign_digits, h1, isDigit_ne_minus c hc, isDigit_ne_plus c hc, if_false]
  rw [takeWhile_isDigit_all _ hd]

theorem stoi_numeral (d : List Char) (h : is_numeral d)
    (hr : (digits_value d : Int) ≤ INT_MAX) : stoi d = Except.ok (digits_value d : Int) := by
  have hmin : ¬ ((digits_value d : Int) < INT_MIN) := by
    have : (0 : Int) ≤ (digits_value d : Int) := Int.ofNat_nonneg _
    unfold INT_MIN
    omega
  simp only [stoi, stoi_sign_digits_numeral d h, h.1, if_false, Bool.false_eq_true]
  rw [if_neg]
  rintro (h1 | h1)
  · exact hmin h1
  · omega

theorem stoi_numeral_out_of_range (d : List Char) (h : is_numeral d)
    (hr : INT_MAX < (digits_value d : Int)) : stoi d = Except.error stoi_error.out_of_range := by
  simp only [stoi, stoi_sign_digits_numeral d h, h.1, if_false, Bool.false_eq_true]
  rw [if_pos (Or.inr hr)]

theorem stoi_no_conversion (t : List Char) (h : (stoi_sign_digits t).2 = []) :
    stoi t = Except.error stoi_error.invalid_argument := by
  simp [stoi, h]

theorem stoi_sign_digits_subset (t : List Char) : ∀ c ∈ (stoi_sign_digits t).2, c ∈ t := by
  intro c hc
  have hsub : ∀ x ∈ t.dropWhile isspace, x ∈ t := fun x hx =>
    (List.dropWhile_suffix _).subset hx
  unfold stoi_sign_digits at hc
  split at hc
  · rename_i a u heq
    have hau : ∀ x ∈ u, x ∈ t := fun x hx => hsub x (heq ▸ List.mem_cons_of_mem _ hx)
    split_ifs at hc
    · exact hau c ((List.takeWhile_prefix _).subset hc)
    · exact hau c ((List.takeWhile_prefix _).subset hc)
    · exact hsub c (heq ▸ (List.takeWhile_prefix _).subset hc)
  · simp at hc

theorem stoi_sign_digits_isDigit (t : List Char) :
    ∀ c ∈ (stoi_sign_digits t).2, c.isDigit = true := by
  intro c hc
  unfold stoi_sign_digits at hc
  split at hc
  · split_ifs at hc
    · exact List.mem_takeWhile_imp hc
    · exact List.mem_takeWhile_imp hc
    · exact List.mem_takeWhile_imp hc
  · simp at hc

theorem stoi_no_digit (t : List Char) (h : ∀ c ∈ t, c.isDigit = false) :
    stoi t = Except.error stoi_error.invalid_argument := by
  apply stoi_no_conversion
  rw [List.eq_nil_iff_forall_not_mem]
  intro c hc
  have h1 := stoi_sign_digits_isDigit t c hc
  have h2 := h c (stoi_sign_digits_subset t c hc)
  rw [h1] at h2
  exact absurd h2 (by decide)

theorem find_not_mem (s : List Char) (c : Char) (h : c ∉ s) : find s c = none := by
  induction s with
  | nil => rfl
  | cons x xs ih =>
    simp only [List.mem_cons, not_or] at h
    have hx : ¬ x = c := fun e => h.1 e.symm
    simp [find, hx, ih h.2]

theorem find_append (d t : List Char) (c : Char) (h : c ∉ d) :
    find (d ++ c :: t) c = some d.length := by
  induction d with
  | nil => simp [find]
  | cons x xs ih =>
    simp only [List.mem_cons, not_or] at h
    have hx : ¬ x = c := fun e => h.1 e.symm
    simp [find, hx, ih h.2]

/-- The member `find` returns either `npos` (the character does not occur) or the length of
the text before the first occurrence. -/
theorem find_spec (s : List Char) (c : Char) :
    (find s c = none ∧ c ∉ s) ∨
      (∃ d t, s = d ++ c :: t ∧ c ∉ d ∧ find s c = some d.length) := by
  induction s with
  | nil => left; simp [find]
  | cons x xs ih =>
    by_cases hx : x = c
    · right
      exact ⟨[], xs, by simp [hx], by simp, by simp [find, hx]⟩
    · rcases ih with ⟨h1, h2⟩ | ⟨d, t, h1, h2, h3⟩
      · left
        refine ⟨by simp [find, hx, h1], ?_⟩
        simp only [List.mem_cons, not_or]
        exact ⟨fun e => hx e.symm, h2⟩
      · right
        refine ⟨x :: d, t, by simp [h1], ?_, by simp [find, hx, h3]⟩
        simp only [List.mem_cons, not_or]
        exact ⟨fun e => hx e.symm, h2⟩

theorem numeric_portion_not_mem (s : List Char) (h : '-' ∉ s) : numeric_portion s = s := by
  unfold numeric_portion
  rw [List.takeWhile_eq_self_iff]
  intro c hc
  simp only [ne_eq, decide_not, Bool.not_eq_eq_eq_not, Bool.not_true, decide_eq_false_iff_not]
  rintro rfl
  exact h hc

theorem numeric_portion_append (d t : List Char) (h : '-' ∉ d) :
    numeric_portion (d ++ '-' :: t) = d := by
  unfold numeric_portion
  rw [List.takeWhile_append_of_pos]
  · simp
  · intro c hc
    simp only [ne_eq, decide_not, Bool.not_eq_eq_eq_not, Bool.not_true, decide_eq_false_iff_not]
    rintro rfl
    exact h hc

/-! ## Lemmas on the loop body -/

/-- The text that the loop body hands to `stoi` is the numeric portion of the segment. -/
theorem try_parse_body_none_iff (v : version) (i : Nat) (s : List Char) :
    try_parse_body v i s = none ↔ ∃ e, stoi (numeric_portion s) = Except.error e := by
  rcases find_spec s '-' with ⟨h1, h2⟩ | ⟨d, t, h1, h2, h3⟩
  · rw [numeric_portion_not_mem s h2]
    simp only [try_parse_body, h1]
    cases hst : stoi s with
    | error e => simp
    | ok n =>
      simp only [exists_false, iff_false]
      split_ifs <;> simp
  · rw [h1, numeric_portion_append d t h2, ← h1]
    have hd : substr_pos_count s 0 d.length = d := by
      simp [substr_pos_count, h1]
    simp only [try_parse_body, h3, hd]
    cases hst : stoi d with
    | error e => simp
    | ok n =>
      simp only [exists_false, iff_false]
      split_ifs <;> simp

theorem try_parse_body_numeral (v : version) (i : Nat) (d : List Char) (h : is_numeral d)
    (hr : (digits_value d : Int) ≤ INT_MAX) :
    try_parse_body v i d =
      some (if i = 0 then { v with major_ := (digits_value d : Int) }
        else if i = 1 then { v with minor_ := (digits_value d : Int) }
        else if i = 2 then
          { v with revision_ := (digits_value d : Int),
                   seq_field_count_ := v.seq_field_count_ + 1 }
        else if i = 3 then
          { v with build_ := (digits_value d : Int),
                   seq_field_count_ := v.seq_field_count_ + 1 }
        else v) := by
  simp only [try_parse_body, find_not_mem d '-' (is_numeral_not_mem_minus d h),
    stoi_numeral d h hr]
  split_ifs <;> rfl

theorem try_parse_body_numeral_dash (v : version) (i : Nat) (d t : List Char)
    (h : is_numeral d) (hr : (digits_value d : Int) ≤ INT_MAX) :
    try_parse_body v i (d ++ '-' :: t) =
      try_parse_body
        (if v.seq_field_count_ = 4 then
          { v with release_ := t, release_set_ := true,
                   seq_field_count_ := v.seq_field_count_ + 1 }
        else { v with release_ := t, release_set_ := true }) i d := by
  have hd : substr_pos_count (d ++ '-' :: t) 0 d.length = d := by
    simp [substr_pos_count]
  have ht : substr_pos (d ++ '-' :: t) (d.length + 1) = t := by
    simp [substr_pos]
  simp only [try_parse_body, find_append d t '-' (is_numeral_not_mem_minus d h), hd, ht,
    find_not_mem d '-' (is_numeral_not_mem_minus d h), stoi_numeral d h hr]

theorem run_segments_none_iff (segs : List (List Char)) : ∀ (v : version) (i : Nat),
    run_segments segs v i = none ↔
      ∃ seg ∈ segs, ∃ e, stoi (numeric_portion seg) = Except.error e := by
  induction segs with
  | nil => intro v i; simp [run_segments]
  | cons s rest ih =>
    intro v i
    simp only [run_segments, List.mem_cons, exists_eq_or_imp]
    cases hb : try_parse_body v i s with
    | none =>
      simp only [true_iff]
      exact Or.inl ((try_parse_body_none_iff v i s).mp hb)
    | some v1 =>
      have hs : ¬ ∃ e, stoi (numeric_portion s) = Except.error e := by
        intro he
        rw [← try_parse_body_none_iff v i s, hb] at he
        exact absurd he (by simp)
      simp only [ih v1 (i + 1), hs, false_or]

/-- The function `try_parse` returns false exactly when the input is empty or `stoi` throws
on the numeric portion of one of the segments read. -/
theorem try_parse_false_iff (s : List Char) (r : version) :
    (try_parse s r).1 = false ↔
      s = [] ∨ ∃ seg ∈ read_segments s, ∃ e, stoi (numeric_portion seg) = Except.error e := by
  rw [try_parse_eq]
  by_cases hs : s = []
  · simp [hs]
  · simp only [hs, if_false, false_or]
    rw [← run_segments_none_iff (read_segments s) {} 0]
    cases run_segments (read_segments s) {} 0 <;> simp

/-- A segment of the input in the sense of splitting at the dots is read by `try_parse`
unless it is empty. -/
theorem mem_read_segments_of_mem_splitOn (s seg : List Char) (h : seg ∈ s.splitOn '.')
    (hne : seg ≠ []) : seg ∈ read_segments s := by
  unfold read_segments
  split
  · rename_i hlast
    have hsplit : s.splitOn '.' ≠ [] := List.splitOnP_ne_nil _ _
    have hl : (s.splitOn '.').getLast hsplit = [] := by
      rw [List.getLast?_eq_getLast _ hsplit] at hlast
      exact Option.some.inj hlast
    have hdec := List.dropLast_append_getLast hsplit
    rw [← hdec] at h
    rcases List.mem_append.mp h with h1 | h1
    · exact h1
    · rw [hl] at h1
      simp only [List.mem_singleton] at h1
      exact absurd h1 hne
  · exact h

theorem read_segments_subset (s seg : List Char) (h : seg ∈ read_segments s) :
    seg ∈ s.splitOn '.' := by
  unfold read_segments at h
  split at h
  · exact List.dropLast_subset _ h
  · exact h

/-! ## Parsing dotted numerals -/

theorem read_segments_intercalate (ds : List (List Char)) (hne : ds ≠ [])
    (hdot : ∀ d ∈ ds, '.' ∉ d) (hlast : ds.getLast hne ≠ []) :
    read_segments (['.'].intercalate ds) = ds := by
  unfold read_segments
  rw [List.splitOn_intercalate ds '.' hdot hne, List.getLast?_eq_getLast _ hne]
  rw [if_neg]
  intro h
  exact hlast (Option.some.inj h)

theorem intercalate_ne_nil (ds : List (List Char)) (hne : ds ≠ [])
    (hhead : ∀ d ∈ ds, d ≠ []) : ['.'].intercalate ds ≠ [] := by
  obtain ⟨d, rest, rfl⟩ := List.exists_cons_of_ne_nil hne
  have hd : d ≠ [] := hhead d (List.mem_cons_self _ _)
  obtain ⟨c, t, rfl⟩ := List.exists_cons_of_ne_nil hd
  cases rest with
  | nil => simp [List.intercalate]
  | cons e rest => simp [List.intercalate, List.intersperse]

theorem run_segments_numerals_ge (ds : List (List Char)) : ∀ (v : version) (i : Nat),
    4 ≤ i → (∀ d ∈ ds, is_numeral d ∧ (digits_value d : Int) ≤ INT_MAX) →
    run_segments ds v i = some v := by
  induction ds with
  | nil => intro v i _ _; rfl
  | cons d rest ih =>
    intro v i hi h
    have hd := h d (List.mem_cons_self _ _)
    have h0 : ¬ i = 0 := by omega
    have h1 : ¬ i = 1 := by omega
    have h2 : ¬ i = 2 := by omega
    have h3 : ¬ i = 3 := by omega
    simp only [run_segments, try_parse_body_numeral v i d hd.1 hd.2, h0, h1, h2, h3, if_false]
    exact ih v (i + 1) (by omega) (fun e he => h e (List.mem_cons_of_mem _ he))

/-- The loop body run over numerals from a fresh `version`, in closed form. -/
theorem run_segments_numerals (ds : List (List Char)) (hne : ds ≠ [])
    (h : ∀ d ∈ ds, is_numeral d ∧ (digits_value d : Int) ≤ INT_MAX) :
    run_segments ds {} 0 =
      some { major_ := (((ds.map digits_value).getD 0 0 : Nat) : Int),
             minor_ := (((ds.map digits_value).getD 1 0 : Nat) : Int),
             revision_ := (((ds.map digits_value).getD 2 0 : Nat) : Int),
             build_ := (((ds.map digits_value).getD 3 0 : Nat) : Int),
             seq_field_count_ := if ds.length ≤ 2 then 2 else if ds.length = 3 then 3 else 4,
             release_ := [],
             release_set_ := false } := by
  match ds, hne, h with
  | [d1], _, h =>
    have h1 := h d1 (by simp)
    simp [run_segments, try_parse_body_numeral _ _ d1 h1.1 h1.2]
  | [d1, d2], _, h =>
    have h1 := h d1 (by simp)
    have h2 := h d2 (by simp)
    simp [run_segments, try_parse_body_numeral _ _ d1 h1.1 h1.2,
      try_parse_body_numeral _ _ d2 h2.1 h2.2]
  | [d1, d2, d3], _, h =>
    have h1 := h d1 (by simp)
    have h2 := h d2 (by simp)
    have h3 := h d3 (by simp)
    simp [run_segments, try_parse_body_numeral _ _ d1 h1.1 h1.2,
      try_parse_body_numeral _ _ d2 h2.1 h2.2, try_parse_body_numeral _ _ d3 h3.1 h3.2]
  | d1 :: d2 :: d3 :: d4 :: rest, _, h =>
    have h1 := h d1 (by simp)
    have h2 := h d2 (by simp)
    have h3 := h d3 (by simp)
    have h4 := h d4 (by simp)
    have hrest : ∀ d ∈ rest, is_numeral d ∧ (digits_value d : Int) ≤ INT_MAX :=
      fun d hd => h d (by simp [hd])
    simp only [run_segments, try_parse_body_numeral _ _ d1 h1.1 h1.2,
      try_parse_body_numeral _ _ d2 h2.1 h2.2, try_parse_body_numeral _ _ d3 h3.1 h3.2,
      try_parse_body_numeral _ _ d4 h4.1 h4.2]
    rw [run_segments_numerals_ge rest _ _ (by omega) hrest]
    simp

/-! ## `std::to_string` writes numerals -/

theorem digitChar_spec (k : Nat) (h : k < 10) :
    (Nat.digitChar k).isDigit = true ∧ digit_value (Nat.digitChar k) = k := by
  interval_cases k <;> decide

theorem digits_value_append_single (l : List Char) (c : Char) :
    digits_value (l ++ [c]) = 10 * digits_value l + digit_value c := by
  simp [digits_value, List.foldl_append]

theorem toDigitsCore_spec (fuel : Nat) : ∀ (n : Nat) (acc : List Char), n < fuel →
    ∃ ds, Nat.toDigitsCore 10 fuel n acc = ds ++ acc ∧ is_numeral ds ∧ digits_value ds = n := by
  induction fuel with
  | zero => intro n acc h; omega
  | succ fuel ih =>
    intro n acc hn
    have hd := digitChar_spec (n % 10) (Nat.mod_lt _ (by decide))
    by_cases h0 : n / 10 = 0
    · refine ⟨[Nat.digitChar (n % 10)], by simp [Nat.toDigitsCore, h0], ?_, ?_⟩
      · exact ⟨by simp, by simpa using hd.1⟩
      · have : digits_value [Nat.digitChar (n % 10)] = digit_value (Nat.digitChar (n % 10)) := by
          simp [digits_value]
        rw [this, hd.2]
        omega
    · obtain ⟨ds, h1, h2, h3⟩ := ih (n / 10) (Nat.digitChar (n % 10) :: acc) (by omega)
      refine ⟨ds ++ [Nat.digitChar (n % 10)], by simp [Nat.toDigitsCore, h0, h1], ?_, ?_⟩
      · refine ⟨by simp, ?_⟩
        intro c hc
        rcases List.mem_append.mp hc with hc | hc
        · exact h2.2 c hc
        · simp only [List.mem_singleton] at hc
          rw [hc]
          exact hd.1
      · rw [digits_value_append_single, h3, hd.2]
        omega

theorem toDigits_numeral (n : Nat) :
    is_numeral (Nat.toDigits 10 n) ∧ digits_value (Nat.toDigits 10 n) = n := by
  obtain ⟨ds, h1, h2, h3⟩ := toDigitsCore_spec (n + 1) n [] (by omega)
  unfold Nat.toDigits
  rw [h1, List.append_nil]
  exact ⟨h2, h3⟩

theorem std_to_string_nonneg (a : Int) (h : 0 ≤ a) :
    is_numeral (std_to_string a) ∧ (digits_value (std_to_string a) : Int) = a := by
  have hlt : ¬ a < 0 := by omega
  simp only [std_to_string, hlt, if_false]
  refine ⟨(toDigits_numeral _).1, ?_⟩
  rw [(toDigits_numeral _).2]
  omega

theorem std_to_string_neg (a : Int) (h : a < 0) :
    std_to_string a = '-' :: Nat.toDigits 10 a.natAbs := by
  simp [std_to_string, h]

/-- Closed form of `try_parse` on dotted numerals. -/
theorem try_parse_numerals_closed (ds : List (List Char)) (r : version) (hne : ds ≠ [])
    (h : ∀ d ∈ ds, is_numeral d ∧ (digits_value d : Int) ≤ INT_MAX) :
    try_parse (['.'].intercalate ds) r =
      (true,
        { major_ := (((ds.map digits_value).getD 0 0 : Nat) : Int),
          minor_ := (((ds.map digits_value).getD 1 0 : Nat) : Int),
          revision_ := (((ds.map digits_value).getD 2 0 : Nat) : Int),
          build_ := (((ds.map digits_value).getD 3 0 : Nat) : Int),
          seq_field_count_ := if ds.length ≤ 2 then 2 else if ds.length = 3 then 3 else 4,
          release_ := [],
          release_set_ := false }) := by
  have hnil : ['.'].intercalate ds ≠ [] :=
    intercalate_ne_nil ds hne (fun d hd => (h d hd).1.1)
  have hseg : read_segments (['.'].intercalate ds) = ds :=
    read_segments_intercalate ds hne (fun d hd => is_numeral_not_mem_dot d (h d hd).1)
      ((h _ (List.getLast_mem hne)).1.1)
  rw [try_parse_eq, if_neg hnil, hseg, run_segments_numerals ds hne h]

theorem try_parse_eq_of_false (s : List Char) (r : version)
    (h : (try_parse s r).1 = false) : try_parse s r = (false, r) := by
  rw [try_parse_eq] at h ⊢
  by_cases hs : s = []
  · simp [hs]
  · simp only [hs, if_false] at h ⊢
    cases hrun : run_segments (read_segments s) {} 0 with
    | none => rfl
    | some v => rw [hrun] at h; simp at h

/-- The first segment read starts with the first character of the input. -/
theorem read_segments_head (c : Char) (t : List Char) (hc : c ≠ '.') :
    ∃ seg rest, read_segments (c :: t) = (c :: seg) :: rest := by
  rcases getline_extract_spec '.' (c :: t) with ⟨s, rest, _, h2, h3⟩ | ⟨_, h2⟩
  · cases s with
    | nil =>
      simp only [List.nil_append, List.cons.injEq] at h2
      exact absurd h2.1 hc
    | cons x s1 =>
      simp only [List.cons_append, List.cons.injEq] at h2
      refine ⟨s1, read_segments rest, ?_⟩
      have h4 : c :: t = (c :: s1) ++ '.' :: rest := by simp [h2.2]
      rw [h4, read_segments_cons _ _ (by rw [h2.1]; exact h3)]
  · exact ⟨t, [], by rw [read_segments_single _ h2]; simp⟩

/-- An input that starts with `-` is rejected: the numeric portion of its first segment
is empty. -/
theorem try_parse_leading_minus (t : List Char) (r : version) :
    try_parse ('-' :: t) r = (false, r) := by
  apply try_parse_eq_of_false
  rw [try_parse_false_iff]
  right
  obtain ⟨seg, rest, h⟩ := read_segments_head '-' t (by decide)
  refine ⟨'-' :: seg, by rw [h]; simp, stoi_error.invalid_argument, ?_⟩
  have : numeric_portion ('-' :: seg) = [] := by simp [numeric_portion]
  rw [this]
  rfl

theorem parse_eq_of_try_parse (s : List Char) (v : version)
    (h : try_parse s {} = (true, v)) : parse s = Except.ok v := by
  simp [parse, h]

theorem parse_error_of_try_parse (s : List Char) (h : (try_parse s {}).1 = false) :
    parse s = Except.error { message_ := "Could not parse version.".toList } := by
  simp [parse, h]

/-! ## What `try_parse` ignores -/

theorem takeWhile_append_stop (p : Char → Bool) (d g : List Char)
    (hd : ∀ c ∈ d, p c = true) (hg : ∀ c, g.head? = some c → p c = false) :
    (d ++ g).takeWhile p = d := by
  induction d with
  | nil =>
    cases g with
    | nil => rfl
    | cons c t => simp [List.takeWhile, hg c rfl]
  | cons x xs ih =>
    have hx : p x = true := hd x (List.mem_cons_self _ _)
    simp only [List.cons_append, List.takeWhile_cons, hx, if_true]
    rw [ih (fun c hc => hd c (List.mem_cons_of_mem _ hc))]

/-- The function `stoi` does not look past the leading numeral. -/
theorem stoi_append_text (d g : List Char) (h : is_numeral d)
    (hg : ∀ c, g.head? = some c → c.isDigit = false) : stoi (d ++ g) = stoi d := by
  have h1 : stoi_sign_digits (d ++ g) = (false, d) := by
    obtain ⟨hne, hd⟩ := h
    obtain ⟨c, t, rfl⟩ := List.exists_cons_of_ne_nil hne
    have hc : c.isDigit = true := hd c (List.mem_cons_self _ _)
    have hdrop : (c :: t ++ g).dropWhile isspace = c :: (t ++ g) := by
      simp [List.dropWhile, isDigit_not_isspace c hc]
    simp only [stoi_sign_digits, hdrop, isDigit_ne_minus c hc, isDigit_ne_plus c hc, if_false]
    have := takeWhile_append_stop Char.isDigit (c :: t) g hd hg
    simp only [List.cons_append] at this
    rw [this]
  simp only [stoi, h1, stoi_sign_digits_numeral d h]

theorem try_parse_body_append_text (v : version) (i : Nat) (d g : List Char)
    (h : is_numeral d) (hg : ∀ c, g.head? = some c → c.isDigit = false) (hm : '-' ∉ g) :
    try_parse_body v i (d ++ g) = try_parse_body v i d := by
  have hmd : '-' ∉ d := is_numeral_not_mem_minus d h
  have hmdg : '-' ∉ d ++ g := by
    simp only [List.mem_append, not_or]
    exact ⟨hmd, hm⟩
  simp only [try_parse_body, find_not_mem _ _ hmdg, find_not_mem _ _ hmd,
    stoi_append_text d g h hg]

theorem run_segments_map_congr (f g : List Char × List Char → List Char)
    (segs : List (List Char × List Char))
    (h : ∀ p ∈ segs, ∀ (v : version) (i : Nat), try_parse_body v i (f p) = try_parse_body v i (g p)) :
    ∀ (v : version) (i : Nat),
      run_segments (segs.map f) v i = run_segments (segs.map g) v i := by
  induction segs with
  | nil => intro v i; rfl
  | cons p rest ih =>
    intro v i
    simp only [List.map, run_segments, h p (List.mem_cons_self _ _) v i]
    cases try_parse_body v i (g p) with
    | none => rfl
    | some v1 => exact ih (fun q hq => h q (List.mem_cons_of_mem _ hq)) v1 (i + 1)

/-- Text that follows the leading numeral of a segment is ignored: for segments `d ++ g`
with `d` a numeral and `g` free of `.` and `-` and not starting with a digit, `try_parse`
gives the result that it gives with every `g` removed. -/
theorem try_parse_trailing_text_ignored (segs : List (List Char × List Char)) (r : version)
    (h : ∀ p ∈ segs, is_numeral p.1 ∧ '.' ∉ p.2 ∧ '-' ∉ p.2 ∧
      ∀ c, p.2.head? = some c → c.isDigit = false) :
    try_parse (['.'].intercalate (segs.map (fun p => p.1 ++ p.2))) r =
      try_parse (['.'].intercalate (segs.map (fun p => p.1))) r := by
  cases hs : segs with
  | nil => rfl
  | cons p0 rest0 =>
    rw [← hs]
    have hne : segs ≠ [] := by rw [hs]; simp
    have hne1 : segs.map (fun p => p.1 ++ p.2) ≠ [] := by simpa using hne
    have hne2 : segs.map (fun p => p.1) ≠ [] := by simpa using hne
    have hdot1 : ∀ d ∈ segs.map (fun p => p.1 ++ p.2), '.' ∉ d := by
      intro d hd
      obtain ⟨p, hp, rfl⟩ := List.mem_map.mp hd
      simp only [List.mem_append, not_or]
      exact ⟨is_numeral_not_mem_dot _ (h p hp).1, (h p hp).2.1⟩
    have hdot2 : ∀ d ∈ segs.map (fun p => p.1), '.' ∉ d := by
      intro d hd
      obtain ⟨p, hp, rfl⟩ := List.mem_map.mp hd
      exact is_numeral_not_mem_dot _ (h p hp).1
    have hnil1 : ∀ d ∈ segs.map (fun p => p.1 ++ p.2), d ≠ [] := by
      intro d hd
      obtain ⟨p, hp, rfl⟩ := List.mem_map.mp hd
      simp [(h p hp).1.1]
    have hnil2 : ∀ d ∈ segs.map (fun p => p.1), d ≠ [] := by
      intro d hd
      obtain ⟨p, hp, rfl⟩ := List.mem_map.mp hd
      exact (h p hp).1.1
    rw [try_parse_eq, try_parse_eq, if_neg (intercalate_ne_nil _ hne1 hnil1),
      if_neg (intercalate_ne_nil _ hne2 hnil2),
      read_segments_intercalate _ hne1 hdot1 (hnil1 _ (List.getLast_mem hne1)),
      read_segments_intercalate _ hne2 hdot2 (hnil2 _ (List.getLast_mem hne2)),
      run_segments_map_congr (fun p => p.1 ++ p.2) (fun p => p.1) segs
        (fun p hp v i =>
          try_parse_body_append_text v i p.1 p.2 (h p hp).1 (h p hp).2.2.2 (h p hp).2.2.1)]

theorem read_segments_append_dot (n : Nat) : ∀ (s : List Char), s.length ≤ n → s ≠ [] →
    s.getLast? ≠ some '.' → read_segments (s ++ ['.']) = read_segments s := by
  induction n with
  | zero =>
    intro s hlen hne _
    exact absurd (List.length_eq_zero.mp (Nat.le_zero.mp hlen)) hne
  | succ n ih =>
    intro s hlen hne hlast
    rcases getline_extract_spec '.' s with ⟨seg, rest, _, h2, h3⟩ | ⟨_, h2⟩
    · have hrest : rest ≠ [] := by
        rintro rfl
        apply hlast
        rw [h2]
        simp
      have hlast2 : rest.getLast? ≠ some '.' := by
        intro hl
        apply hlast
        obtain ⟨x, l, hxl⟩ := List.exists_cons_of_ne_nil hrest
        rw [h2, List.getLast?_append_of_ne_nil _ (by simp), hxl, List.getLast?_cons_cons,
          ← hxl]
        exact hl
      have hlen2 : rest.length ≤ n := by
        have : s.length = seg.length + (rest.length + 1) := by rw [h2]; simp
        omega
      have hshape : s ++ ['.'] = seg ++ '.' :: (rest ++ ['.']) := by rw [h2]; simp
      rw [hshape, read_segments_cons _ _ h3, ih rest hlen2 hrest hlast2, h2,
        read_segments_cons _ _ h3]
    · have hshape : s ++ ['.'] = s ++ '.' :: [] := rfl
      rw [hshape, read_segments_cons _ _ h2, read_segments_single s h2, if_neg hne,
        read_segments_single [] (by simp)]
      simp

/-- One dot at the end of the input is ignored: an input that does not itself end in a
dot is parsed the same with a dot appended. -/
theorem try_parse_final_dot_ignored (s : List Char) (r : version) (hne : s ≠ [])
    (hlast : s.getLast? ≠ some '.') : try_parse (s ++ ['.']) r = try_parse s r := by
  rw [try_parse_eq, try_parse_eq, if_neg hne, if_neg (by simp),
    read_segments_append_dot s.length s (le_refl _) hne hlast]

/-! ## The claims -/

/-- Claim C1: for every non-empty sequence `ds` of base-10 numerals of non-negative
integers within the `int` range, joined by single dots, `try_parse` returns true and
commits the version whose `major_`, `minor_`, `revision_`, `build_` are the values of the
1st to 4th numeral (0 for a missing one), whose `release_` is empty with `release_set_`
false, and whose `seq_field_count_` is 2 for at most two numerals, 3 for three and 4 for
four or more; the numerals after the fourth change nothing: the result is that of the
first four alone. -/
theorem try_parse_dotted_numerals (ds : List (List Char)) (r : version) (hne : ds ≠ [])
    (h : ∀ d ∈ ds, is_numeral d ∧ (digits_value d : Int) ≤ INT_MAX) :
    try_parse (['.'].intercalate ds) r =
        (true,
          { major_ := (((ds.map digits_value).getD 0 0 : Nat) : Int),
            minor_ := (((ds.map digits_value).getD 1 0 : Nat) : Int),
            revision_ := (((ds.map digits_value).getD 2 0 : Nat) : Int),
            build_ := (((ds.map digits_value).getD 3 0 : Nat) : Int),
            seq_field_count_ := if ds.length ≤ 2 then 2 else if ds.length = 3 then 3 else 4,
            release_ := [],
            release_set_ := false }) ∧
      try_parse (['.'].intercalate ds) r = try_parse (['.'].intercalate (ds.take 4)) r := by
  refine ⟨try_parse_numerals_closed ds r hne h, ?_⟩
  have hne4 : ds.take 4 ≠ [] := by
    cases ds with
    | nil => exact absurd rfl hne
    | cons d rest => simp
  have h4 : ∀ d ∈ ds.take 4, is_numeral d ∧ (digits_value d : Int) ≤ INT_MAX :=
    fun d hd => h d (List.mem_of_mem_take hd)
  rw [try_parse_numerals_closed ds r hne h, try_parse_numerals_closed (ds.take 4) r hne4 h4]
  match ds, hne with
  | [d1], _ => rfl
  | [d1, d2], _ => rfl
  | [d1, d2, d3], _ => rfl
  | d1 :: d2 :: d3 :: d4 :: rest, _ => simp

/-- Witness of C1 at the input `"10.2.3.4.5"`: five numerals, the fifth is not stored. -/
theorem try_parse_dotted_numerals_witness :
    (["10".toList, "2".toList, "3".toList, "4".toList, "5".toList] ≠ [] ∧
      ∀ d ∈ ["10".toList, "2".toList, "3".toList, "4".toList, "5".toList],
        is_numeral d ∧ (digits_value d : Int) ≤ INT_MAX) ∧
      (try_parse "10.2.3.4.5".toList (version_int_int 7 8) =
          (true,
            { major_ := 10, minor_ := 2, revision_ := 3, build_ := 4, seq_field_count_ := 4,
              release_ := [], release_set_ := false }) ∧
        try_parse "10.2.3.4.5".toList (version_int_int 7 8) =
          try_parse "10.2.3.4".toList (version_int_int 7 8)) :=
  ⟨⟨by decide, by decide⟩,
    try_parse_dotted_numerals
      ["10".toList, "2".toList, "3".toList, "4".toList, "5".toList] (version_int_int 7 8)
      (by decide) (by decide)⟩

/-- Claim C2: for all non-negative in-range integers `a b c d` and every tag without a
dot, `parse` of the string `"a.b.c.d-tag"` returns the version with `major_ = a`,
`minor_ = b`, `revision_ = c`, `build_ = d`, `release_ = tag`, `release_set_ = true`
(and `seq_field_count_ = 4`), whose `fields()` is 5; so it is for `"1.2.3.4-beta"`. -/
theorem parse_four_numbers_tag (a b c d : Int) (tag : List Char)
    (ha : 0 ≤ a ∧ a ≤ INT_MAX) (hb : 0 ≤ b ∧ b ≤ INT_MAX) (hc : 0 ≤ c ∧ c ≤ INT_MAX)
    (hd : 0 ≤ d ∧ d ≤ INT_MAX) (htag : '.' ∉ tag) :
    parse (std_to_string a ++ ".".toList ++ std_to_string b ++ ".".toList ++
          std_to_string c ++ ".".toList ++ std_to_string d ++ "-".toList ++ tag) =
        Except.ok
          { major_ := a, minor_ := b, revision_ := c, build_ := d, seq_field_count_ := 4,
            release_ := tag, release_set_ := true } ∧
      fields
          { major_ := a, minor_ := b, revision_ := c, build_ := d, seq_field_count_ := 4,
            release_ := tag, release_set_ := true } = 5 := by
  refine ⟨?_, by simp [fields]⟩
  apply parse_eq_of_try_parse
  obtain ⟨na, va⟩ := std_to_string_nonneg a ha.1
  obtain ⟨nb, vb⟩ := std_to_string_nonneg b hb.1
  obtain ⟨nc, vc⟩ := std_to_string_nonneg c hc.1
  obtain ⟨nd, vd⟩ := std_to_string_nonneg d hd.1
  have ra : (digits_value (std_to_string a) : Int) ≤ INT_MAX := by rw [va]; exact ha.2
  have rb : (digits_value (std_to_string b) : Int) ≤ INT_MAX := by rw [vb]; exact hb.2
  have rc : (digits_value (std_to_string c) : Int) ≤ INT_MAX := by rw [vc]; exact hc.2
  have rd : (digits_value (std_to_string d) : Int) ≤ INT_MAX := by rw [vd]; exact hd.2
  have hshape : std_to_string a ++ ".".toList ++ std_to_string b ++ ".".toList ++
        std_to_string c ++ ".".toList ++ std_to_string d ++ "-".toList ++ tag =
      std_to_string a ++ '.' :: (std_to_string b ++ '.' :: (std_to_string c ++ '.' ::
        (std_to_string d ++ '-' :: tag))) := by
    simp
  have hlast : '.' ∉ std_to_string d ++ '-' :: tag := by
    simp only [List.mem_append, List.mem_cons, not_or]
    exact ⟨is_numeral_not_mem_dot _ nd, by decide, htag⟩
  have hlastne : std_to_string d ++ '-' :: tag ≠ [] := by simp
  have hseg : read_segments (std_to_string a ++ '.' :: (std_to_string b ++ '.' ::
        (std_to_string c ++ '.' :: (std_to_string d ++ '-' :: tag)))) =
      [std_to_string a, std_to_string b, std_to_string c, std_to_string d ++ '-' :: tag] := by
    rw [read_segments_cons _ _ (is_numeral_not_mem_dot _ na),
      read_segments_cons _ _ (is_numeral_not_mem_dot _ nb),
      read_segments_cons _ _ (is_numeral_not_mem_dot _ nc),
      read_segments_single _ hlast, if_neg hlastne]
  rw [hshape, try_parse_eq, if_neg (by simp [na.1]), hseg]
  simp only [run_segments, try_parse_body_numeral _ _ _ na ra,
    try_parse_body_numeral _ _ _ nb rb, try_parse_body_numeral _ _ _ nc rc,
    try_parse_body_numeral_dash _ _ _ _ nd rd, try_parse_body_numeral _ _ _ nd rd]
  simp [va, vb, vc, vd]

/-- Witness of C2 at `"1.2.3.4-beta"`. -/
theorem parse_four_numbers_tag_witness :
    ((0 : Int) ≤ 1 ∧ (1 : Int) ≤ INT_MAX) ∧ '.' ∉ "beta".toList ∧
      (parse "1.2.3.4-beta".toList =
          Except.ok
            { major_ := 1, minor_ := 2, revision_ := 3, build_ := 4, seq_field_count_ := 4,
              release_ := "beta".toList, release_set_ := true } ∧
        fields
            { major_ := 1, minor_ := 2, revision_ := 3, build_ := 4, seq_field_count_ := 4,
              release_ := "beta".toList, release_set_ := true } = 5) :=
  ⟨by decide, by decide,
    parse_four_numbers_tag 1 2 3 4 "beta".toList (by decide) (by decide) (by decide)
      (by decide) (by decide)⟩

/-- Claim C3: whenever `try_parse` returns false, the caller's `result` is exactly what it
was before the call, for every input string and every prior value of `result`. -/
theorem try_parse_false_result_unchanged (s : List Char) (r : version)
    (h : (try_parse s r).1 = false) : (try_parse s r).2 = r := by
  unfold try_parse at h ⊢
  by_cases hl : s.length = 0
  · simp [hl]
  · simp only [hl, if_false] at h ⊢
    generalize try_parse_loop (s.length + 1) { buf := s, eofbit := false } {} 0 = x at h ⊢
    rcases x with _ | _ | v
    · rfl
    · rfl
    · simp at h

/-- Witness of C3: `try_parse("1..2", result)` fails and leaves `version(7, 8, "rc")`. -/
theorem try_parse_false_result_unchanged_witness :
    (try_parse "1..2".toList (version_int_int_string 7 8 "rc".toList)).1 = false ∧
      (try_parse "1..2".toList (version_int_int_string 7 8 "rc".toList)).2 =
        version_int_int_string 7 8 "rc".toList :=
  ⟨by decide,
    try_parse_false_result_unchanged "1..2".toList (version_int_int_string 7 8 "rc".toList)
      (by decide)⟩

/-- Counterexample to C4 as stated: `"1."` split at the dots has an empty last segment,
whose numeric portion contains no decimal digit, and yet `try_parse` returns true. -/
theorem try_parse_trailing_dot_accepted :
    ([] : List Char) ∈ "1.".toList.splitOn '.' ∧
      (∀ c ∈ numeric_portion [], c.isDigit = false) ∧
      try_parse "1.".toList {} = (true, { major_ := 1 }) := by
  decide

/-- Claim C4, amended: `try_parse` returns false for the empty string, and for every input
in which a segment that is read (the pieces between the dots, a dot that ends the input
opening no further segment) has a numeric portion without any decimal digit. -/
theorem try_parse_fails_without_digit (s : List Char) (r : version)
    (h : s = [] ∨ ∃ seg ∈ read_segments s, ∀ c ∈ numeric_portion seg, c.isDigit = false) :
    (try_parse s r).1 = false := by
  rw [try_parse_false_iff]
  rcases h with h | ⟨seg, hseg, hd⟩
  · exact Or.inl h
  · exact Or.inr ⟨seg, hseg, stoi_error.invalid_argument, stoi_no_digit _ hd⟩

/-- Witness of the amended C4 at `"1..2"`, whose second segment is empty. -/
theorem try_parse_fails_without_digit_witness :
    ("1..2".toList = [] ∨
        ∃ seg ∈ read_segments "1..2".toList, ∀ c ∈ numeric_portion seg, c.isDigit = false) ∧
      (try_parse "1..2".toList {}).1 = false :=
  ⟨Or.inr ⟨[], by decide, by decide⟩,
    try_parse_fails_without_digit "1..2".toList {} (Or.inr ⟨[], by decide, by decide⟩)⟩

/-- Counterexample to C5 as stated: the numeric portions `"1x"` of `"1x.2"` and `"2rc"` of
`"1.2rc"` are not numerals, and yet `try_parse` returns true on both inputs, with 1.2. -/
theorem try_parse_trailing_text_accepted :
    "1x".toList ∈ "1x.2".toList.splitOn '.' ∧ ¬ is_numeral (numeric_portion "1x".toList) ∧
      try_parse "1x.2".toList {} = (true, { major_ := 1, minor_ := 2 }) ∧
      "2rc".toList ∈ "1.2rc".toList.splitOn '.' ∧ ¬ is_numeral (numeric_portion "2rc".toList) ∧
      try_parse "1.2rc".toList {} = (true, { major_ := 1, minor_ := 2 }) := by
  decide

/-- Claim C5, amended: for every input in which the numeric portion of some segment that
is read does not begin, after optional leading white space and an optional sign, with a
decimal digit, the whole parse fails: `try_parse` returns false. -/
theorem try_parse_fails_without_leading_digit (s : List Char) (r : version) (seg : List Char)
    (hseg : seg ∈ read_segments s) (h : (stoi_sign_digits (numeric_portion seg)).2 = []) :
    (try_parse s r).1 = false := by
  rw [try_parse_false_iff]
  exact Or.inr ⟨seg, hseg, stoi_error.invalid_argument, stoi_no_conversion _ h⟩

/-- Witness of the amended C5 at `"1.x2"`: the second segment has a digit, but not first. -/
theorem try_parse_fails_without_leading_digit_witness :
    "x2".toList ∈ read_segments "1.x2".toList ∧
      (stoi_sign_digits (numeric_portion "x2".toList)).2 = [] ∧
      (try_parse "1.x2".toList {}).1 = false :=
  ⟨by decide, by decide,
    try_parse_fails_without_leading_digit "1.x2".toList {} "x2".toList (by decide) (by decide)⟩

/-- Claim C6: for every input in which the numeric portion of some segment, at any index,
is a base-10 numeral whose value is above `INT_MAX`, `try_parse` returns false and `parse`
raises `version_parse_exception`. -/
theorem try_parse_fails_out_of_range (s : List Char) (r : version) (seg : List Char)
    (hseg : seg ∈ s.splitOn '.') (hnum : is_numeral (numeric_portion seg))
    (hbig : INT_MAX < (digits_value (numeric_portion seg) : Int)) :
    (try_parse s r).1 = false ∧
      parse s = Except.error { message_ := "Could not parse version.".toList } := by
  have hne : seg ≠ [] := by
    rintro rfl
    exact hnum.1 (by simp [numeric_portion])
  have hread : seg ∈ read_segments s := mem_read_segments_of_mem_splitOn s seg hseg hne
  have hfail : ∀ r0 : version, (try_parse s r0).1 = false := by
    intro r0
    rw [try_parse_false_iff]
    exact Or.inr ⟨seg, hread, stoi_error.out_of_range,
      stoi_numeral_out_of_range _ hnum hbig⟩
  exact ⟨hfail r, parse_error_of_try_parse s (hfail {})⟩

/-- Witness of C6 at `"1.2.3.4.2147483648-rc"`: the segment at index 4 is out of range. -/
theorem try_parse_fails_out_of_range_witness :
    "2147483648-rc".toList ∈ "1.2.3.4.2147483648-rc".toList.splitOn '.' ∧
      is_numeral (numeric_portion "2147483648-rc".toList) ∧
      INT_MAX < (digits_value (numeric_portion "2147483648-rc".toList) : Int) ∧
      (try_parse "1.2.3.4.2147483648-rc".toList {}).1 = false ∧
      parse "1.2.3.4.2147483648-rc".toList =
        Except.error { message_ := "Could not parse version.".toList } :=
  ⟨by decide, by decide, by decide,
    try_parse_fails_out_of_range "1.2.3.4.2147483648-rc".toList {} "2147483648-rc".toList
      (by decide) (by decide) (by decide)⟩

/-- Counterexample to C7 as stated: `try_parse("-1.2", result)` returns false. -/
theorem try_parse_minus_one_rejected :
    std_to_string (-1) ++ ".".toList ++ std_to_string 2 = "-1.2".toList ∧
      try_parse "-1.2".toList (version_int_int 7 8) = (false, version_int_int 7 8) := by
  decide

/-- Claim C7, amended: a leading `-` is not read as a sign. For every negative integer `a`
and every integer `b`, `try_parse` of `"a.b"` returns false and leaves `result` as it was:
the `-` is taken as the release separator and the numeric portion before it is empty. -/
theorem try_parse_negative_major_fails (a b : Int) (r : version) (ha : a < 0) :
    try_parse (std_to_string a ++ ".".toList ++ std_to_string b) r = (false, r) := by
  rw [std_to_string_neg a ha]
  exact try_parse_leading_minus _ r

/-- Witness of the amended C7 at `a = -1`, `b = 2`. -/
theorem try_parse_negative_major_fails_witness :
    (-1 : Int) < 0 ∧
      try_parse (std_to_string (-1) ++ ".".toList ++ std_to_string 2) (version_int_int 7 8) =
        (false, version_int_int 7 8) :=
  ⟨by decide, try_parse_negative_major_fails (-1) 2 (version_int_int 7 8) (by decide)⟩

/-- Counterexample to C8 as stated: `"01.2"` is made of the numerals `"01"` and `"2"` of
in-range non-negative integers joined by one dot, it parses, and the parsed version is
written back as `"1.2"`. -/
theorem parse_to_string_leading_zero :
    (is_numeral "01".toList ∧ (digits_value "01".toList : Int) ≤ INT_MAX) ∧
      (is_numeral "2".toList ∧ (digits_value "2".toList : Int) ≤ INT_MAX) ∧
      "01".toList ++ ".".toList ++ "2".toList = "01.2".toList ∧
      parse "01.2".toList = Except.ok { major_ := 1, minor_ := 2 } ∧
      to_string { major_ := 1, minor_ := 2 } = "1.2".toList ∧
      "1.2".toList ≠ "01.2".toList :=
  ⟨by decide, by decide, by decide, rfl, by decide, by decide⟩

/-- Claim C8, amended: for every string `s` made of the decimal renderings without
leading zeros (those of `std::to_string`) of two non-negative integers within the `int`
range, joined by one dot, `parse(s)` succeeds and `parse(s).to_string()` equals `s`. -/
theorem parse_to_string_round_trip (a b : Int) (ha : 0 ≤ a ∧ a ≤ INT_MAX)
    (hb : 0 ≤ b ∧ b ≤ INT_MAX) :
    ∃ v, parse (std_to_string a ++ ".".toList ++ std_to_string b) = Except.ok v ∧
      to_string v = std_to_string a ++ ".".toList ++ std_to_string b := by
  obtain ⟨na, va⟩ := std_to_string_nonneg a ha.1
  obtain ⟨nb, vb⟩ := std_to_string_nonneg b hb.1
  have hshape : std_to_string a ++ ".".toList ++ std_to_string b =
      ['.'].intercalate [std_to_string a, std_to_string b] := by
    simp [List.intercalate]
  have hds : ∀ d ∈ [std_to_string a, std_to_string b],
      is_numeral d ∧ (digits_value d : Int) ≤ INT_MAX := by
    intro d hd
    simp only [List.mem_cons, List.mem_singleton, List.not_mem_nil, or_false] at hd
    rcases hd with rfl | rfl
    · exact ⟨na, by rw [va]; exact ha.2⟩
    · exact ⟨nb, by rw [vb]; exact hb.2⟩
  have hparse := try_parse_numerals_closed [std_to_string a, std_to_string b] {}
    (by simp) hds
  simp only [List.map, List.getD_cons_zero, List.getD_cons_succ, List.getD_nil, va, vb,
    List.length_cons, List.length_nil] at hparse
  refine ⟨_, parse_eq_of_try_parse _ _ (hshape ▸ hparse), ?_⟩
  simp [to_string, to_string_int, to_string_int_bool, to_string_int_bool_cstr]

/-- Witness of the amended C8 at `"10.0"`. -/
theorem parse_to_string_round_trip_witness :
    ((0 : Int) ≤ 10 ∧ (10 : Int) ≤ INT_MAX) ∧ ((0 : Int) ≤ 0 ∧ (0 : Int) ≤ INT_MAX) ∧
      ∃ v, parse (std_to_string 10 ++ ".".toList ++ std_to_string 0) = Except.ok v ∧
        to_string v = std_to_string 10 ++ ".".toList ++ std_to_string 0 :=
  ⟨by decide, by decide, parse_to_string_round_trip 10 0 (by decide) (by decide)⟩

/-- Claim C9: for every version `v`, integer `field_count`, boolean `include_release` and
separator `sep`, `v.to_string(field_count, include_release, sep)` is `major.minor`,
followed by `.revision` iff `field_count >= 3`, followed by `.build` iff
`field_count >= 4`, followed by `sep ++ release` iff `field_count >= 5` and the release is
not empty, or `include_release` is true; and `version(1,2,3,4,"rc1").to_string(5, true, "~")`
is `"1.2.3.4~rc1"`. -/
theorem to_string_rendering (v : version) (field_count : Int) (include_release : Bool)
    (sep : List Char) :
    to_string_int_bool_cstr v field_count include_release sep =
        std_to_string v.major_ ++ ".".toList ++ std_to_string v.minor_ ++
          (if 3 ≤ field_count then ".".toList ++ std_to_string v.revision_ else []) ++
          (if 4 ≤ field_count then ".".toList ++ std_to_string v.build_ else []) ++
          (if (5 ≤ field_count ∧ v.release_ ≠ []) ∨ include_release = true then
            sep ++ v.release_
          else []) ∧
      to_string_int_bool_cstr (version_int_int_int_int_string 1 2 3 4 "rc1".toList) 5 true
        "~".toList = "1.2.3.4~rc1".toList := by
  refine ⟨?_, by decide⟩
  have hlen : v.release_.length > 0 ↔ v.release_ ≠ [] := List.length_pos
  simp only [to_string_int_bool_cstr, ge_iff_le, hlen]
  split_ifs <;> simp

/-- Claim C10, evaluated where the code departs from it: `version(1,2,3).to_string(2)` is
`"1.2.3"`, while `version(1,2,3).to_string(2, release_set_, "_")` is `"1.2"`; the overload
`to_string(int field_count)` passes `seq_field_count_` on, not its argument. -/
theorem to_string_int_ignores_field_count :
    to_string_int (version_int_int_int 1 2 3) 2 = "1.2.3".toList ∧
      to_string_int_bool_cstr (version_int_int_int 1 2 3) 2
        (version_int_int_int 1 2 3).release_set_ "_".toList = "1.2".toList ∧
      ∀ (v : version) (n : Int),
        to_string_int v n =
          to_string_int_bool_cstr v v.seq_field_count_ v.release_set_ "_".toList := by
  refine ⟨by decide, by decide, ?_⟩
  intro v n
  rfl

/-! ## Lemmas on `compare` -/

theorem numeric_tuple_eq_iff (a b : version) :
    numeric_tuple a = numeric_tuple b ↔
      a.major_ = b.major_ ∧ a.minor_ = b.minor_ ∧ a.revision_ = b.revision_ ∧
        a.build_ = b.build_ := by
  simp [numeric_tuple]

/-- For equal 4-tuples `compare` only looks at the release. -/
theorem compare_of_tuple_eq (a b : version) (h : numeric_tuple a = numeric_tuple b) :
    compare a b =
      if a.release_set_ ≠ b.release_set_ ∧ a.release_ ≠ b.release_ then -1 else 0 := by
  obtain ⟨h1, h2, h3, h4⟩ := (numeric_tuple_eq_iff a b).mp h
  simp [version.compare, h1, h2, h3, h4]

/-- For different 4-tuples `compare` is the lexicographic order of the tuples. -/
theorem compare_of_tuple_ne (a b : version) (h : numeric_tuple a ≠ numeric_tuple b) :
    (compare a b = -1 ∨ compare a b = 1) ∧
      (compare a b = -1 ↔
        a.major_ < b.major_ ∨ (a.major_ = b.major_ ∧ (a.minor_ < b.minor_ ∨
          (a.minor_ = b.minor_ ∧ (a.revision_ < b.revision_ ∨
            (a.revision_ = b.revision_ ∧ a.build_ < b.build_)))))) := by
  rw [Ne, numeric_tuple_eq_iff] at h
  unfold version.compare
  split_ifs <;> simp_all

/-- The sign `≤ 0` of `compare` is the lexicographic `≤` of the 4-tuples. -/
theorem compare_le_zero_iff (a b : version) :
    compare a b ≤ 0 ↔
      a.major_ < b.major_ ∨ (a.major_ = b.major_ ∧ (a.minor_ < b.minor_ ∨
        (a.minor_ = b.minor_ ∧ (a.revision_ < b.revision_ ∨
          (a.revision_ = b.revision_ ∧ a.build_ ≤ b.build_))))) := by
  unfold version.compare
  split_ifs <;> simp_all <;> omega

theorem compare_eq_zero_iff (a b : version) :
    compare a b = 0 ↔
      numeric_tuple a = numeric_tuple b ∧
        (a.release_set_ = b.release_set_ ∨ a.release_ = b.release_) := by
  by_cases h : numeric_tuple a = numeric_tuple b
  · rw [compare_of_tuple_eq a b h]
    simp only [h, true_and]
    split_ifs with h1
    · simp only [ne_eq] at h1
      constructor
      · intro h0
        exact absurd h0 (by decide)
      · rintro (h2 | h2)
        · exact absurd h2 h1.1
        · exact absurd h2 h1.2
    · simp only [true_iff]
      by_contra hc
      exact h1 ⟨fun e => hc (Or.inl e), fun e => hc (Or.inr e)⟩
  · have := (compare_of_tuple_ne a b h).1
    simp only [h, false_and, iff_false]
    omega

/-! ## The claims on comparison -/

/-- Claim C11: for all versions `a` and `b`, `a.compare(b)` is -1, 0 or 1 and equals the
reference: for different 4-tuples the first differing field decides (-1 when the field of
`a` is smaller, else 1); for equal 4-tuples it is -1 when `release_set` differs and the
release strings differ, and 0 otherwise. The significant field count has no influence:
whatever counts `n` and `m` the two versions are given, the result is the same. -/
theorem compare_eq_reference (a b : version) (n m : Int) :
    (compare a b = -1 ∨ compare a b = 0 ∨ compare a b = 1) ∧
      compare a b = compare_reference a b ∧
      version.compare { a with seq_field_count_ := n } { b with seq_field_count_ := m } =
        version.compare a b := by
  refine ⟨?_, ?_, rfl⟩
  · unfold version.compare
    split_ifs <;> simp
  · simp only [version.compare, compare_reference, numeric_tuple, first_difference]
    split_ifs <;> simp_all

/-- Counterexample to C12 as stated: `version(1,0)` and `version(1,0,"rc")` compare as -1
in both directions, so `a.compare(b)` is not `-(b.compare(a))`; and `version(1,0)`,
`version(1,0,"")`, `version(1,0,"x")` show that `==` is not transitive. -/
theorem compare_not_antisymmetric :
    (compare (version_int_int 1 0) (version_int_int_string 1 0 "rc".toList) = -1 ∧
        compare (version_int_int_string 1 0 "rc".toList) (version_int_int 1 0) = -1 ∧
        compare (version_int_int 1 0) (version_int_int_string 1 0 "rc".toList) ≠
          -(compare (version_int_int_string 1 0 "rc".toList) (version_int_int 1 0))) ∧
      (op_eq (version_int_int 1 0) (version_int_int_string 1 0 []) = true ∧
        op_eq (version_int_int_string 1 0 []) (version_int_int_string 1 0 "x".toList) = true ∧
        op_eq (version_int_int 1 0) (version_int_int_string 1 0 "x".toList) = false) := by
  decide

/-- Claim C12, amended: the sign of `compare` orders all versions by their 4-tuples:
`a.compare(b) <= 0` or `b.compare(a) <= 0`, and `a.compare(b) <= 0` with
`b.compare(c) <= 0` implies `a.compare(c) <= 0`. The equation
`a.compare(b) = -(b.compare(a))` holds for all `a`, `b` whose 4-tuples differ, or whose
`release_set` flags agree, or whose release strings agree. The operator `==` is transitive
from `a` over `b` to `c` whenever `a` and `c` agree in `release_set` or in the release. -/
theorem compare_sign_order (a b c : version) :
    (compare a b ≤ 0 ∨ compare b a ≤ 0) ∧
      (compare a b ≤ 0 → compare b c ≤ 0 → compare a c ≤ 0) ∧
      (numeric_tuple a ≠ numeric_tuple b ∨ a.release_set_ = b.release_set_ ∨
          a.release_ = b.release_ → compare a b = -(compare b a)) ∧
      (a.release_set_ = c.release_set_ ∨ a.release_ = c.release_ →
        op_eq a b = true → op_eq b c = true → op_eq a c = true) := by
  refine ⟨?_, ?_, ?_, ?_⟩
  · rw [compare_le_zero_iff, compare_le_zero_iff]
    omega
  · rw [compare_le_zero_iff, compare_le_zero_iff, compare_le_zero_iff]
    omega
  · intro h
    by_cases ht : numeric_tuple a = numeric_tuple b
    · rw [compare_of_tuple_eq a b ht, compare_of_tuple_eq b a ht.symm]
      have hrel : ¬ (a.release_set_ ≠ b.release_set_ ∧ a.release_ ≠ b.release_) := by
        rintro ⟨h1, h2⟩
        rcases h with h | h | h
        · exact h ht
        · exact h1 h
        · exact h2 h
      have hrel2 : ¬ (b.release_set_ ≠ a.release_set_ ∧ b.release_ ≠ a.release_) :=
        fun ⟨h1, h2⟩ => hrel ⟨fun e => h1 e.symm, fun e => h2 e.symm⟩
      rw [if_neg hrel, if_neg hrel2]
      rfl
    · have h1 := compare_of_tuple_ne a b ht
      have h2 := compare_of_tuple_ne b a (fun e => ht e.symm)
      rw [numeric_tuple_eq_iff] at ht
      omega
  · intro h hab hbc
    simp only [op_eq, decide_eq_true_eq] at hab hbc ⊢
    rw [compare_eq_zero_iff] at hab hbc ⊢
    exact ⟨hab.1.trans hbc.1, h⟩

/-- Witness of the amended C12 at `version(1,0)`, `version(1,0,"")`, `version(1,1)`. -/
theorem compare_sign_order_witness :
    (compare (version_int_int 1 0) (version_int_int_string 1 0 []) ≤ 0 ∧
        compare (version_int_int_string 1 0 []) (version_int_int 1 1) ≤ 0 ∧
        compare (version_int_int 1 0) (version_int_int 1 1) ≤ 0) ∧
      ((version_int_int 1 0).release_ = (version_int_int_string 1 0 []).release_ ∧
        compare (version_int_int 1 0) (version_int_int_string 1 0 []) =
          -(compare (version_int_int_string 1 0 []) (version_int_int 1 0))) :=
  ⟨⟨by decide, by decide,
      (compare_sign_order (version_int_int 1 0) (version_int_int_string 1 0 [])
        (version_int_int 1 1)).2.1 (by decide) (by decide)⟩,
    by decide,
    (compare_sign_order (version_int_int 1 0) (version_int_int_string 1 0 [])
      (version_int_int 1 1)).2.2.1 (Or.inr (Or.inr (by decide)))⟩

/-- Counterexample to C13 as stated: `version(1,0)` and `version(1,0,"")` have equal
numeric fields and different `release_set`, and `compare` returns 0, in both orders. -/
theorem compare_release_set_only :
    numeric_tuple (version_int_int 1 0) = numeric_tuple (version_int_int_string 1 0 []) ∧
      (version_int_int 1 0).release_set_ ≠ (version_int_int_string 1 0 []).release_set_ ∧
      compare (version_int_int 1 0) (version_int_int_string 1 0 []) = 0 ∧
      compare (version_int_int_string 1 0 []) (version_int_int 1 0) = 0 := by
  decide

/-- Claim C13, amended: for all versions `a` and `b` whose four numeric fields are equal,
whose `release_set` differs and whose release strings differ, `a.compare(b)` returns -1, in
either argument order; with equal release strings it returns 0 in either order; it never
returns +1. -/
theorem compare_release_presence (a b : version)
    (ht : numeric_tuple a = numeric_tuple b) (hs : a.release_set_ ≠ b.release_set_) :
    (a.release_ ≠ b.release_ → compare a b = -1 ∧ compare b a = -1) ∧
      (a.release_ = b.release_ → compare a b = 0 ∧ compare b a = 0) ∧
      compare a b ≠ 1 ∧ compare b a ≠ 1 := by
  rw [compare_of_tuple_eq a b ht, compare_of_tuple_eq b a ht.symm]
  have hs2 : b.release_set_ ≠ a.release_set_ := fun e => hs e.symm
  by_cases hr : a.release_ = b.release_
  · have hr2 : b.release_ = a.release_ := hr.symm
    simp [hr2]
  · have hr2 : ¬ b.release_ = a.release_ := fun e => hr e.symm
    simp [hs, hs2, hr, hr2]

/-- Witness of the amended C13 at `version(1,0)` and `version(1,0,"rc")`. -/
theorem compare_release_presence_witness :
    numeric_tuple (version_int_int 1 0) =
        numeric_tuple (version_int_int_string 1 0 "rc".toList) ∧
      (version_int_int 1 0).release_set_ ≠
        (version_int_int_string 1 0 "rc".toList).release_set_ ∧
      (version_int_int 1 0).release_ ≠ (version_int_int_string 1 0 "rc".toList).release_ ∧
      compare (version_int_int 1 0) (version_int_int_string 1 0 "rc".toList) = -1 ∧
      compare (version_int_int_string 1 0 "rc".toList) (version_int_int 1 0) = -1 :=
  ⟨by decide, by decide, by decide,
    (compare_release_presence (version_int_int 1 0)
      (version_int_int_string 1 0 "rc".toList) (by decide) (by decide)).1 (by decide)⟩

/-- Claim C14: restricted to different 4-tuples `compare` is antisymmetric and transitive:
for all `a`, `b` with different tuples `a.compare(b) = -(b.compare(a))` and it is not 0; for
all `a`, `b`, `c` with pairwise different tuples, `a.compare(b) = -1` and
`b.compare(c) = -1` imply `a.compare(c) = -1`. -/
theorem compare_distinct_tuples (a b c : version) :
    (numeric_tuple a ≠ numeric_tuple b →
        compare a b = -(compare b a) ∧ compare a b ≠ 0) ∧
      (numeric_tuple a ≠ numeric_tuple b → numeric_tuple b ≠ numeric_tuple c →
        numeric_tuple a ≠ numeric_tuple c →
        compare a b = -1 → compare b c = -1 → compare a c = -1) := by
  constructor
  · intro ht
    have h1 := compare_of_tuple_ne a b ht
    have h2 := compare_of_tuple_ne b a (fun e => ht e.symm)
    rw [Ne, numeric_tuple_eq_iff] at ht
    omega
  · intro hab hbc hac h1 h2
    rw [(compare_of_tuple_ne a b hab).2] at h1
    rw [(compare_of_tuple_ne b c hbc).2] at h2
    rw [(compare_of_tuple_ne a c hac).2]
    omega

/-- Witness of C14 at `version(1,2)`, `version(1,2,3)`, `version(2,0)`. -/
theorem compare_distinct_tuples_witness :
    (numeric_tuple (version_int_int 1 2) ≠ numeric_tuple (version_int_int_int 1 2 3) ∧
        numeric_tuple (version_int_int_int 1 2 3) ≠ numeric_tuple (version_int_int 2 0) ∧
        numeric_tuple (version_int_int 1 2) ≠ numeric_tuple (version_int_int 2 0)) ∧
      (compare (version_int_int 1 2) (version_int_int_int 1 2 3) = -1 ∧
        compare (version_int_int_int 1 2 3) (version_int_int 2 0) = -1) ∧
      (compare (version_int_int 1 2) (version_int_int_int 1 2 3) =
          -(compare (version_int_int_int 1 2 3) (version_int_int 1 2)) ∧
        compare (version_int_int 1 2) (version_int_int_int 1 2 3) ≠ 0) ∧
      compare (version_int_int 1 2) (version_int_int 2 0) = -1 :=
  ⟨by decide, by decide,
    (compare_distinct_tuples (version_int_int 1 2) (version_int_int_int 1 2 3)
      (version_int_int 2 0)).1 (by decide),
    (compare_distinct_tuples (version_int_int 1 2) (version_int_int_int 1 2 3)
      (version_int_int 2 0)).2 (by decide) (by decide) (by decide) (by decide) (by decide)⟩

/-- Claim C15: the operator `!=` is not the negation of `==`: `a != b` is true exactly when
`a.compare(b) = -1`, so whenever `a.compare(b) = 1`, as for `version(2,0)` and
`version(1,0)`, both `a == b` and `a != b` are false. -/
theorem op_ne_iff_compare (a b : version) :
    (op_ne a b = true ↔ compare a b = -1) ∧
      (compare a b = 1 → op_eq a b = false ∧ op_ne a b = false) ∧
      (compare (version_int_int 2 0) (version_int_int 1 0) = 1 ∧
        op_eq (version_int_int 2 0) (version_int_int 1 0) = false ∧
        op_ne (version_int_int 2 0) (version_int_int 1 0) = false) ∧
      ¬ ∀ x y : version, op_ne x y = !op_eq x y := by
  refine ⟨by simp [op_ne], ?_, by decide, ?_⟩
  · intro h
    simp [op_eq, op_ne, h]
  · intro h
    exact absurd (h (version_int_int 2 0) (version_int_int 1 0)) (by decide)

/-- Witness of C15 at `version(2,0)` and `version(1,0)`. -/
theorem op_ne_iff_compare_witness :
    compare (version_int_int 2 0) (version_int_int 1 0) = 1 ∧
      op_eq (version_int_int 2 0) (version_int_int 1 0) = false ∧
      op_ne (version_int_int 2 0) (version_int_int 1 0) = false :=
  ⟨by decide,
    (op_ne_iff_compare (version_int_int 2 0) (version_int_int 1 0)).2.1 (by decide)⟩

/-! ## Parsing what `std::to_string` writes -/

theorem std_numerals_ok (ns : List Int) (h : ∀ n ∈ ns, 0 ≤ n ∧ n ≤ INT_MAX) :
    ∀ d ∈ ns.map std_to_string, is_numeral d ∧ (digits_value d : Int) ≤ INT_MAX := by
  intro d hd
  obtain ⟨n, hn, rfl⟩ := List.mem_map.mp hd
  obtain ⟨h1, h2⟩ := std_to_string_nonneg n (h n hn).1
  exact ⟨h1, by rw [h2]; exact (h n hn).2⟩

theorem try_parse_std_two (a b : Int) (r : version) (ha : 0 ≤ a ∧ a ≤ INT_MAX)
    (hb : 0 ≤ b ∧ b ≤ INT_MAX) :
    try_parse (std_to_string a ++ '.' :: std_to_string b) r =
      (true, version_int_int a b) := by
  have hds := std_numerals_ok [a, b] (by
    intro n hn
    simp only [List.mem_cons, List.mem_singleton, List.not_mem_nil, or_false] at hn
    rcases hn with rfl | rfl
    · exact ha
    · exact hb)
  have hparse := try_parse_numerals_closed ([a, b].map std_to_string) r (by simp) hds
  simp only [List.map, List.getD_cons_zero, List.getD_cons_succ, List.getD_nil,
    (std_to_string_nonneg a ha.1).2, (std_to_string_nonneg b hb.1).2,
    List.length_cons, List.length_nil] at hparse
  have hshape : ['.'].intercalate [std_to_string a, std_to_string b] =
      std_to_string a ++ '.' :: std_to_string b := by
    simp [List.intercalate]
  rw [hshape] at hparse
  rw [hparse]
  simp [version_int_int]

theorem try_parse_std_three (a b c : Int) (r : version) (ha : 0 ≤ a ∧ a ≤ INT_MAX)
    (hb : 0 ≤ b ∧ b ≤ INT_MAX) (hc : 0 ≤ c ∧ c ≤ INT_MAX) :
    try_parse (std_to_string a ++ '.' :: (std_to_string b ++ '.' :: std_to_string c)) r =
      (true, version_int_int_int a b c) := by
  have hds := std_numerals_ok [a, b, c] (by
    intro n hn
    simp only [List.mem_cons, List.mem_singleton, List.not_mem_nil, or_false] at hn
    rcases hn with rfl | rfl | rfl
    · exact ha
    · exact hb
    · exact hc)
  have hparse := try_parse_numerals_closed ([a, b, c].map std_to_string) r (by simp) hds
  simp only [List.map, List.getD_cons_zero, List.getD_cons_succ, List.getD_nil,
    (std_to_string_nonneg a ha.1).2, (std_to_string_nonneg b hb.1).2,
    (std_to_string_nonneg c hc.1).2, List.length_cons, List.length_nil] at hparse
  have hshape : ['.'].intercalate [std_to_string a, std_to_string b, std_to_string c] =
      std_to_string a ++ '.' :: (std_to_string b ++ '.' :: std_to_string c) := by
    simp [List.intercalate]
  rw [hshape] at hparse
  rw [hparse]
  simp [version_int_int_int]

theorem try_parse_std_four (a b c d : Int) (r : version) (ha : 0 ≤ a ∧ a ≤ INT_MAX)
    (hb : 0 ≤ b ∧ b ≤ INT_MAX) (hc : 0 ≤ c ∧ c ≤ INT_MAX) (hd : 0 ≤ d ∧ d ≤ INT_MAX) :
    try_parse (std_to_string a ++ '.' :: (std_to_string b ++ '.' ::
        (std_to_string c ++ '.' :: std_to_string d))) r =
      (true, version_int_int_int_int a b c d) := by
  have hds := std_numerals_ok [a, b, c, d] (by
    intro n hn
    simp only [List.mem_cons, List.mem_singleton, List.not_mem_nil, or_false] at hn
    rcases hn with rfl | rfl | rfl | rfl
    · exact ha
    · exact hb
    · exact hc
    · exact hd)
  have hparse := try_parse_numerals_closed ([a, b, c, d].map std_to_string) r (by simp) hds
  simp only [List.map, List.getD_cons_zero, List.getD_cons_succ, List.getD_nil,
    (std_to_string_nonneg a ha.1).2, (std_to_string_nonneg b hb.1).2,
    (std_to_string_nonneg c hc.1).2, (std_to_string_nonneg d hd.1).2,
    List.length_cons, List.length_nil] at hparse
  have hshape :
      ['.'].intercalate [std_to_string a, std_to_string b, std_to_string c, std_to_string d] =
        std_to_string a ++ '.' :: (std_to_string b ++ '.' ::
          (std_to_string c ++ '.' :: std_to_string d)) := by
    simp [List.intercalate]
  rw [hshape] at hparse
  rw [hparse]
  simp [version_int_int_int_int]

/-- Four numbers and a tag: the parse of `"a.b.c.d-tag"`. -/
theorem try_parse_std_four_tag (a b c d : Int) (tag : List Char) (r : version)
    (ha : 0 ≤ a ∧ a ≤ INT_MAX) (hb : 0 ≤ b ∧ b ≤ INT_MAX) (hc : 0 ≤ c ∧ c ≤ INT_MAX)
    (hd : 0 ≤ d ∧ d ≤ INT_MAX) (htag : '.' ∉ tag) :
    try_parse (std_to_string a ++ '.' :: (std_to_string b ++ '.' ::
        (std_to_string c ++ '.' :: (std_to_string d ++ '-' :: tag)))) r =
      (true,
        { major_ := a, minor_ := b, revision_ := c, build_ := d, seq_field_count_ := 4,
          release_ := tag, release_set_ := true }) := by
  obtain ⟨na, va⟩ := std_to_string_nonneg a ha.1
  obtain ⟨nb, vb⟩ := std_to_string_nonneg b hb.1
  obtain ⟨nc, vc⟩ := std_to_string_nonneg c hc.1
  obtain ⟨nd, vd⟩ := std_to_string_nonneg d hd.1
  have ra : (digits_value (std_to_string a) : Int) ≤ INT_MAX := by rw [va]; exact ha.2
  have rb : (digits_value (std_to_string b) : Int) ≤ INT_MAX := by rw [vb]; exact hb.2
  have rc : (digits_value (std_to_string c) : Int) ≤ INT_MAX := by rw [vc]; exact hc.2
  have rd : (digits_value (std_to_string d) : Int) ≤ INT_MAX := by rw [vd]; exact hd.2
  have hlast : '.' ∉ std_to_string d ++ '-' :: tag := by
    simp only [List.mem_append, List.mem_cons, not_or]
    exact ⟨is_numeral_not_mem_dot _ nd, by decide, htag⟩
  have hlastne : std_to_string d ++ '-' :: tag ≠ [] := by simp
  have hseg : read_segments (std_to_string a ++ '.' :: (std_to_string b ++ '.' ::
        (std_to_string c ++ '.' :: (std_to_string d ++ '-' :: tag)))) =
      [std_to_string a, std_to_string b, std_to_string c, std_to_string d ++ '-' :: tag] := by
    rw [read_segments_cons _ _ (is_numeral_not_mem_dot _ na),
      read_segments_cons _ _ (is_numeral_not_mem_dot _ nb),
      read_segments_cons _ _ (is_numeral_not_mem_dot _ nc),
      read_segments_single _ hlast, if_neg hlastne]
  rw [try_parse_eq, if_neg (by simp [na.1]), hseg]
  simp only [run_segments, try_parse_body_numeral _ _ _ na ra,
    try_parse_body_numeral _ _ _ nb rb, try_parse_body_numeral _ _ _ nc rc,
    try_parse_body_numeral_dash _ _ _ _ nd rd, try_parse_body_numeral _ _ _ nd rd]
  simp [va, vb, vc, vd]

/-! ## The claims on omitted fields, `empty()` and the field counts -/

/-- Claim C16: omitted trailing numeric fields compare as zero. For all non-negative
in-range integers `a`, `b`, `b'`: `parse("a.b")`, `parse("a.b.0")`, `parse("a.b.0.0")`
succeed (as `version(a,b)`, `version(a,b,0)`, `version(a,b,0,0)`), `parse("a.b")` is `==`
to the other two with `compare` 0 in both directions, although `fields()` is 2, 3 and 4;
and for `b < b'`, `parse("a.b") < parse("a.b'")`. -/
theorem parse_omitted_fields_compare (a b b' : Int) (ha : 0 ≤ a ∧ a ≤ INT_MAX)
    (hb : 0 ≤ b ∧ b ≤ INT_MAX) (hb' : 0 ≤ b' ∧ b' ≤ INT_MAX) :
    (parse (std_to_string a ++ ".".toList ++ std_to_string b) =
          Except.ok (version_int_int a b) ∧
        parse (std_to_string a ++ ".".toList ++ std_to_string b ++ ".0".toList) =
          Except.ok (version_int_int_int a b 0) ∧
        parse (std_to_string a ++ ".".toList ++ std_to_string b ++ ".0.0".toList) =
          Except.ok (version_int_int_int_int a b 0 0) ∧
        parse (std_to_string a ++ ".".toList ++ std_to_string b') =
          Except.ok (version_int_int a b')) ∧
      (op_eq (version_int_int a b) (version_int_int_int a b 0) = true ∧
        op_eq (version_int_int_int a b 0) (version_int_int a b) = true ∧
        op_eq (version_int_int a b) (version_int_int_int_int a b 0 0) = true ∧
        op_eq (version_int_int_int_int a b 0 0) (version_int_int a b) = true) ∧
      (compare (version_int_int a b) (version_int_int_int a b 0) = 0 ∧
        compare (version_int_int_int a b 0) (version_int_int a b) = 0 ∧
        compare (version_int_int a b) (version_int_int_int_int a b 0 0) = 0 ∧
        compare (version_int_int_int_int a b 0 0) (version_int_int a b) = 0) ∧
      (fields (version_int_int a b) = 2 ∧ fields (version_int_int_int a b 0) = 3 ∧
        fields (version_int_int_int_int a b 0 0) = 4) ∧
      (b < b' → op_lt (version_int_int a b) (version_int_int a b') = true) := by
  have h0 : std_to_string 0 = ['0'] := by decide
  have hz : (0 : Int) ≤ 0 ∧ (0 : Int) ≤ INT_MAX := by decide
  have s2 : std_to_string a ++ ".".toList ++ std_to_string b =
      std_to_string a ++ '.' :: std_to_string b := by simp
  have s2' : std_to_string a ++ ".".toList ++ std_to_string b' =
      std_to_string a ++ '.' :: std_to_string b' := by simp
  have s3 : std_to_string a ++ ".".toList ++ std_to_string b ++ ".0".toList =
      std_to_string a ++ '.' :: (std_to_string b ++ '.' :: std_to_string 0) := by
    simp [h0]
  have s4 : std_to_string a ++ ".".toList ++ std_to_string b ++ ".0.0".toList =
      std_to_string a ++ '.' :: (std_to_string b ++ '.' ::
        (std_to_string 0 ++ '.' :: std_to_string 0)) := by
    simp [h0]
  refine ⟨⟨?_, ?_, ?_, ?_⟩, ?_, ?_, ?_, ?_⟩
  · rw [s2]; exact parse_eq_of_try_parse _ _ (try_parse_std_two a b {} ha hb)
  · rw [s3]; exact parse_eq_of_try_parse _ _ (try_parse_std_three a b 0 {} ha hb hz)
  · rw [s4]; exact parse_eq_of_try_parse _ _ (try_parse_std_four a b 0 0 {} ha hb hz hz)
  · rw [s2']; exact parse_eq_of_try_parse _ _ (try_parse_std_two a b' {} ha hb')
  · simp [op_eq, version.compare, version_int_int, version_int_int_int,
      version_int_int_int_int]
  · simp [version.compare, version_int_int, version_int_int_int, version_int_int_int_int]
  · simp [fields, version_int_int, version_int_int_int, version_int_int_int_int]
  · intro hlt
    have hne : ¬ b = b' := by omega
    simp [op_lt, version.compare, version_int_int, hne, hlt]

/-- Witness of C16: `parse("2.0") < parse("2.1")`, and with `a = 2`, `b = 1` the theorem
gives `parse("2.1.0") == parse("2.1")`. -/
theorem parse_omitted_fields_compare_witness :
    ((0 : Int) ≤ 2 ∧ (2 : Int) ≤ INT_MAX) ∧ ((0 : Int) ≤ 0 ∧ (0 : Int) ≤ INT_MAX) ∧
      ((0 : Int) ≤ 1 ∧ (1 : Int) ≤ INT_MAX) ∧ (0 : Int) < 1 ∧
      (parse "2.0".toList = Except.ok (version_int_int 2 0) ∧
        parse "2.1".toList = Except.ok (version_int_int 2 1) ∧
        op_lt (version_int_int 2 0) (version_int_int 2 1) = true) ∧
      (parse "2.1.0".toList = Except.ok (version_int_int_int 2 1 0) ∧
        op_eq (version_int_int_int 2 1 0) (version_int_int 2 1) = true) :=
  ⟨by decide, by decide, by decide, by decide,
    ⟨(parse_omitted_fields_compare 2 0 1 (by decide) (by decide) (by decide)).1.1,
      (parse_omitted_fields_compare 2 0 1 (by decide) (by decide) (by decide)).1.2.2.2,
      (parse_omitted_fields_compare 2 0 1 (by decide) (by decide) (by decide)).2.2.2.2
        (by decide)⟩,
    ⟨(parse_omitted_fields_compare 2 1 1 (by decide) (by decide) (by decide)).1.2.1,
      (parse_omitted_fields_compare 2 1 1 (by decide) (by decide) (by decide)).2.1.2.1⟩⟩

theorem empty_iff_default (v : version) : empty v = true ↔ v = version_default := by
  obtain ⟨a, b, c, d, n, rel, set⟩ := v
  simp only [empty, version_default, Bool.and_eq_true, decide_eq_true_eq,
    List.length_eq_zero, version.mk.injEq]
  tauto

/-- Claim C17: `empty()` is true exactly for the default-constructed state: `version()` is
empty, `version(a, b)` is empty iff `a = 0` and `b = 0` (so `version(0,0)` is and
`version(1,0)` is not), `parse("0.0")` is `version()` itself and so is empty, and after
`clear()` every version equals `version()` and is empty. -/
theorem empty_exactly_default (v : version) (a b : Int) :
    (empty v = true ↔ v = version_default) ∧
      empty version_default = true ∧
      (empty (version_int_int a b) = true ↔ a = 0 ∧ b = 0) ∧
      (empty (version_int_int 0 0) = true ∧ empty (version_int_int 1 0) = false) ∧
      (parse "0.0".toList = Except.ok version_default ∧
        parse "0.0".toList = Except.ok (version_int_int 0 0)) ∧
      (clear v = version_default ∧ empty (clear v) = true) := by
  refine ⟨empty_iff_default v, by decide, ?_, by decide, ⟨rfl, rfl⟩, rfl, rfl⟩
  rw [empty_iff_default]
  simp [version_int_int, version_default]

/-! ## The field count during a parse -/

/-- One pass of the loop body changes `seq_field_count_` by one for the 3rd or 4th segment
and by one more when the segment holds a `-` while the count is 4. -/
theorem try_parse_body_seq_field_count (w w1 : version) (i : Nat) (s : List Char)
    (h : try_parse_body w i s = some w1) :
    w1.seq_field_count_ =
      w.seq_field_count_ + (if i = 2 ∨ i = 3 then 1 else 0) +
        (if '-' ∈ s ∧ w.seq_field_count_ = 4 then 1 else 0) := by
  rcases find_spec s '-' with ⟨h1, h2⟩ | ⟨d, t, h1, _, h3⟩
  · simp only [try_parse_body, h1] at h
    cases hst : stoi s with
    | error e => simp [hst] at h
    | ok n =>
      simp only [hst] at h
      split_ifs at h <;> simp only [Option.some.injEq] at h <;> subst h <;> simp_all
  · have hmem : '-' ∈ s := by rw [h1]; simp
    simp only [try_parse_body, h3] at h
    cases hst : stoi (substr_pos_count s 0 d.length) with
    | error e => simp [hst] at h
    | ok n =>
      simp only [hst] at h
      split_ifs at h <;> simp only [Option.some.injEq] at h <;> subst h <;> simp_all

/-- The invariant of the loop of `try_parse`: the count is 2 before the 3rd segment, 3
before the 4th, and 4 or 5 afterwards. -/
theorem run_segments_seq_field_count (segs : List (List Char)) :
    ∀ (w w1 : version) (i : Nat), run_segments segs w i = some w1 →
      ((i ≤ 2 → w.seq_field_count_ = 2) ∧ (i = 3 → w.seq_field_count_ = 3) ∧
        (4 ≤ i → w.seq_field_count_ = 4 ∨ w.seq_field_count_ = 5)) →
      2 ≤ w1.seq_field_count_ ∧ w1.seq_field_count_ ≤ 5 := by
  induction segs with
  | nil =>
    intro w w1 i h hinv
    simp only [run_segments, Option.some.injEq] at h
    subst h
    rcases Nat.lt_or_ge i 3 with hi | hi
    · have := hinv.1 (by omega); omega
    · rcases Nat.eq_or_lt_of_le hi with hi | hi
      · have := hinv.2.1 hi.symm; omega
      · have := hinv.2.2 (by omega); omega
  | cons s rest ih =>
    intro w w1 i h hinv
    simp only [run_segments] at h
    cases hb : try_parse_body w i s with
    | none => simp [hb] at h
    | some w2 =>
      simp only [hb] at h
      have hstep := try_parse_body_seq_field_count w w2 i s hb
      apply ih w2 w1 (i + 1) h
      refine ⟨?_, ?_, ?_⟩
      · intro hi
        have h2 := hinv.1 (by omega)
        have hi2 : ¬ (i = 2 ∨ i = 3) := by omega
        have hd : ¬ ('-' ∈ s ∧ w.seq_field_count_ = 4) := by
          rintro ⟨_, h4⟩; omega
        rw [hstep, if_neg hi2, if_neg hd, h2]; rfl
      · intro hi
        have h2 := hinv.1 (by omega)
        have hi2 : i = 2 ∨ i = 3 := by omega
        have hd : ¬ ('-' ∈ s ∧ w.seq_field_count_ = 4) := by
          rintro ⟨_, h4⟩; omega
        rw [hstep, if_pos hi2, if_neg hd, h2]; rfl
      · intro hi
        rcases Nat.eq_or_lt_of_le hi with hi3 | hi4
        · have h3 := hinv.2.1 (by omega)
          have hi2 : i = 2 ∨ i = 3 := by omega
          have hd : ¬ ('-' ∈ s ∧ w.seq_field_count_ = 4) := by
            rintro ⟨_, h4⟩; omega
          rw [hstep, if_pos hi2, if_neg hd, h3]
          left; rfl
        · have h45 := hinv.2.2 (by omega)
          have hi2 : ¬ (i = 2 ∨ i = 3) := by omega
          rw [hstep, if_neg hi2]
          split_ifs with hd
          · right; rw [hd.2]; rfl
          · rcases h45 with h4 | h5
            · left; rw [h4]; rfl
            · right; rw [h5]; rfl

theorem try_parse_seq_field_count (s : List Char) (r v : version)
    (h : try_parse s r = (true, v)) : 2 ≤ v.seq_field_count_ ∧ v.seq_field_count_ ≤ 5 := by
  rw [try_parse_eq] at h
  by_cases hs : s = []
  · simp [hs] at h
  · simp only [hs, if_false] at h
    cases hrun : run_segments (read_segments s) {} 0 with
    | none => simp [hrun] at h
    | some w =>
      simp only [hrun, Prod.mk.injEq, true_and] at h
      subst h
      exact run_segments_seq_field_count _ _ _ 0 hrun
        ⟨fun _ => rfl, fun h3 => absurd h3 (by decide), fun h4 => absurd h4 (by decide)⟩

theorem parse_ok_iff (s : List Char) (v : version) :
    parse s = Except.ok v ↔ try_parse s {} = (true, v) := by
  unfold parse
  cases htp : try_parse s {} with
  | mk f w =>
    cases f <;> simp

/-- Every obtainable version has its `seq_field_count_` between 2 and 5. -/
theorem obtainable_seq_field_count (v : version) (h : obtainable v) :
    2 ≤ v.seq_field_count_ ∧ v.seq_field_count_ ≤ 5 := by
  cases h with
  | from_default => decide
  | from_int_int a b => simp [version_int_int]
  | from_int_int_string a b rel => simp [version_int_int_string]
  | from_int_int_int a b c => simp [version_int_int_int]
  | from_int_int_int_string a b c rel => simp [version_int_int_int_string]
  | from_int_int_int_int a b c d => simp [version_int_int_int_int]
  | from_int_int_int_int_string a b c d rel => simp [version_int_int_int_int_string]
  | from_std_string s _ hp =>
    exact try_parse_seq_field_count s {} v ((parse_ok_iff s v).mp hp)
  | from_cstr s _ hp =>
    exact try_parse_seq_field_count s {} v ((parse_ok_iff s v).mp hp)
  | from_parse s _ hp =>
    exact try_parse_seq_field_count s {} v ((parse_ok_iff s v).mp hp)
  | from_try_parse s r _ hp => exact try_parse_seq_field_count s r v hp
  | from_clear w => simp [clear]

/-- Claim C18: for every version obtainable through the public interface (a constructor,
`clear()`, a successful `parse` or `try_parse`), `fields()` lies between 2 and 5, and it is
`seq_field_count_ + 1` when that count is below 5 and `release_set_` is true, and
`seq_field_count_` otherwise. -/
theorem fields_range (v : version) (h : obtainable v) :
    (2 ≤ fields v ∧ fields v ≤ 5) ∧
      fields v =
        if v.seq_field_count_ < 5 ∧ v.release_set_ = true then v.seq_field_count_ + 1
        else v.seq_field_count_ := by
  have hr := obtainable_seq_field_count v h
  refine ⟨?_, rfl⟩
  unfold fields
  split_ifs with hc
  · omega
  · exact hr

/-- Witness of C18: the parse of `"1.2.3.4.5-x"` has count 5 and `fields()` 5. -/
theorem fields_range_witness :
    obtainable (try_parse "1.2.3.4.5-x".toList {}).2 ∧
      (2 ≤ fields (try_parse "1.2.3.4.5-x".toList {}).2 ∧
        fields (try_parse "1.2.3.4.5-x".toList {}).2 ≤ 5) ∧
      fields (try_parse "1.2.3.4.5-x".toList {}).2 = 5 :=
  ⟨obtainable.from_try_parse "1.2.3.4.5-x".toList {} _ (by decide),
    (fields_range _ (obtainable.from_try_parse "1.2.3.4.5-x".toList {} _ (by decide))).1,
    by decide⟩

/-- Counterexample to C19 as stated: `version(1,2,3,4,"rc")` has `seq_field_count_` 5, and
so has the version that `try_parse("1.2.3.4.5-x")` commits, where the count rises from 4
to 5 at the 5th segment, which is neither the 3rd nor the 4th numeric field. -/
theorem seq_field_count_five :
    (version_int_int_int_int_string 1 2 3 4 "rc".toList).seq_field_count_ = 5 ∧
      try_parse "1.2.3.4.5-x".toList {} =
        (true,
          { major_ := 1, minor_ := 2, revision_ := 3, build_ := 4, seq_field_count_ := 5,
            release_ := "x".toList, release_set_ := true }) ∧
      try_parse_body (version_int_int_int_int 1 2 3 4) 4 "5-x".toList =
        some
          { major_ := 1, minor_ := 2, revision_ := 3, build_ := 4, seq_field_count_ := 5,
            release_ := "x".toList, release_set_ := true } ∧
      ¬ ((version_int_int_int_int_string 1 2 3 4 "rc".toList).seq_field_count_ ≤ 4) := by
  decide

/-- Claim C19, amended: `seq_field_count_` is always in [2,5]: for every version produced
by a constructor, by `clear()` or by a successful parse, `2 <= seq_field_count_ <= 5`.
During a parse, a pass of the loop body raises the count by one when it reads the 3rd or
4th numeric field, by one more when the segment holds a `-` while the count is 4, and
leaves it as it is otherwise. -/
theorem seq_field_count_range (v : version) (h : obtainable v) :
    (2 ≤ v.seq_field_count_ ∧ v.seq_field_count_ ≤ 5) ∧
      ∀ (w w1 : version) (i : Nat) (s : List Char), try_parse_body w i s = some w1 →
        w1.seq_field_count_ =
          w.seq_field_count_ + (if i = 2 ∨ i = 3 then 1 else 0) +
            (if '-' ∈ s ∧ w.seq_field_count_ = 4 then 1 else 0) :=
  ⟨obtainable_seq_field_count v h, try_parse_body_seq_field_count⟩

/-- Witness of the amended C19 at `version(1,2,3,4,"rc")`, and at the third segment of a
parse. -/
theorem seq_field_count_range_witness :
    obtainable (version_int_int_int_int_string 1 2 3 4 "rc".toList) ∧
      (2 ≤ (version_int_int_int_int_string 1 2 3 4 "rc".toList).seq_field_count_ ∧
        (version_int_int_int_int_string 1 2 3 4 "rc".toList).seq_field_count_ ≤ 5) ∧
      try_parse_body (version_int_int 1 2) 2 "3".toList = some (version_int_int_int 1 2 3) ∧
      (version_int_int_int 1 2 3).seq_field_count_ =
        (version_int_int 1 2).seq_field_count_ + (if 2 = 2 ∨ 2 = 3 then 1 else 0) +
          (if '-' ∈ "3".toList ∧ (version_int_int 1 2).seq_field_count_ = 4 then 1 else 0) :=
  ⟨obtainable.from_int_int_int_int_string 1 2 3 4 "rc".toList,
    (seq_field_count_range _
      (obtainable.from_int_int_int_int_string 1 2 3 4 "rc".toList)).1,
    by decide,
    (seq_field_count_range _
      (obtainable.from_int_int_int_int_string 1 2 3 4 "rc".toList)).2
      (version_int_int 1 2) (version_int_int_int 1 2 3) 2 "3".toList (by decide)⟩

/-- Claim C20: formatting with the `-` separator is undone by parsing: for every version
`v` whose four numeric fields are non-negative (and in the `int` range) and whose release
contains no dot, `try_parse(v.to_string(4, true, "-"), result)` returns true and commits
the version with the major, minor, revision, build and release of `v`, with
`release_set_` true (and `seq_field_count_` 4). -/
theorem try_parse_to_string_dash (v r : version)
    (hmajor : 0 ≤ v.major_ ∧ v.major_ ≤ INT_MAX) (hminor : 0 ≤ v.minor_ ∧ v.minor_ ≤ INT_MAX)
    (hrevision : 0 ≤ v.revision_ ∧ v.revision_ ≤ INT_MAX)
    (hbuild : 0 ≤ v.build_ ∧ v.build_ ≤ INT_MAX) (hrelease : '.' ∉ v.release_) :
    try_parse (to_string_int_bool_cstr v 4 true "-".toList) r =
      (true,
        { major_ := v.major_, minor_ := v.minor_, revision_ := v.revision_,
          build_ := v.build_, seq_field_count_ := 4, release_ := v.release_,
          release_set_ := true }) := by
  have hshape : to_string_int_bool_cstr v 4 true "-".toList =
      std_to_string v.major_ ++ '.' :: (std_to_string v.minor_ ++ '.' ::
        (std_to_string v.revision_ ++ '.' :: (std_to_string v.build_ ++ '-' :: v.release_))) := by
    simp [to_string_int_bool_cstr]
  rw [hshape]
  exact try_parse_std_four_tag _ _ _ _ _ r hmajor hminor hrevision hbuild hrelease

/-- Witness of C20 at `version(1, 2, 0, "rc-1")`, whose release holds a `-` itself. -/
theorem try_parse_to_string_dash_witness :
    '.' ∉ (version_int_int_int_string 1 2 0 "rc-1".toList).release_ ∧
      to_string_int_bool_cstr (version_int_int_int_string 1 2 0 "rc-1".toList) 4 true
        "-".toList = "1.2.0.0-rc-1".toList ∧
      try_parse (to_string_int_bool_cstr (version_int_int_int_string 1 2 0 "rc-1".toList) 4
          true "-".toList) (version_int_int 7 8) =
        (true,
          { major_ := 1, minor_ := 2, revision_ := 0, build_ := 0, seq_field_count_ := 4,
            release_ := "rc-1".toList, release_set_ := true }) :=
  ⟨by decide, by decide,
    try_parse_to_string_dash (version_int_int_int_string 1 2 0 "rc-1".toList)
      (version_int_int 7 8) (by decide) (by decide) (by decide) (by decide) (by decide)⟩

end sai
